import Mathlib

/-
Verification of the mvstats module (src/mvstats/mvstats.py): vectorized
covariance, correlation, linear regression and detrending of labeled
multi-dimensional arrays along a shared "time" dimension.

The embedding models an xarray DataArray as a finite set of non-time cells
(the flattened product of the non-time dimensions), each cell carrying one
time series.  Machine floats are idealized as exact reals; the float values
NaN and Inf, which the library deliberately lets propagate through degenerate
cases (division by zero variance, empty overlap, out-of-range sqrt), are
conflated into a single absorbing value `Val.undef`.  The numpy/xarray
operations the source calls (shift, dropna, align, rolling mean, and the
reductions mean/std/sum, which skip missing values by default for float data)
are modelled per their documented semantics.
-/

namespace MvStats

/-- An idealized float: either a finite real number or `undef`, standing for
the IEEE non-finite results (NaN/Inf) that the library lets propagate. -/
inductive Val where
  | undef : Val
  | fin : ℝ → Val

namespace Val

/-- Addition; any operation touching an undefined value is undefined. -/
noncomputable def add : Val → Val → Val
  | fin a, fin b => fin (a + b)
  | _, _ => undef

/-- Subtraction with undefined absorption. -/
noncomputable def sub : Val → Val → Val
  | fin a, fin b => fin (a - b)
  | _, _ => undef

/-- Multiplication with undefined absorption. -/
noncomputable def mul : Val → Val → Val
  | fin a, fin b => fin (a * b)
  | _, _ => undef

/-- Division: a zero divisor yields an undefined result (float Inf or NaN),
and undefined operands propagate. -/
noncomputable def div : Val → Val → Val
  | fin a, fin b => if b = 0 then undef else fin (a / b)
  | _, _ => undef

/-- Squaring, modelling the source expression `xstd**2`. -/
noncomputable def sq : Val → Val
  | fin a => fin (a ^ 2)
  | undef => undef

/-- Model of `np.abs`: elementwise absolute value, NaN propagating. -/
noncomputable def abs : Val → Val
  | fin a => fin |a|
  | undef => undef

/-- Model of `np.sqrt`: the square root of a negative number is NaN. -/
noncomputable def sqrt : Val → Val
  | fin a => if a < 0 then undef else fin (Real.sqrt a)
  | undef => undef

/-- Whether the value is a finite number. -/
def isFin : Val → Bool
  | fin _ => true
  | undef => false

/-- The finite value, if any. -/
def toOption : Val → Option ℝ
  | fin a => some a
  | undef => none

end Val

/-- The finite entries of a series, in order: the values numpy's nan-skipping
reductions actually aggregate. -/
def toReals (s : List Val) : List ℝ := s.filterMap Val.toOption

/-- Mean of a list of reals (textbook, denominator = length). -/
noncomputable def meanR (l : List ℝ) : ℝ := l.sum / l.length

/-- Population variance (denominator n) of a list of reals. -/
noncomputable def popVar (l : List ℝ) : ℝ :=
  ((l.map (fun a => (a - meanR l) ^ 2)).sum) / l.length

/-- Population covariance (denominator n = length of the first list). -/
noncomputable def popCov (xs ys : List ℝ) : ℝ :=
  ((List.zipWith (fun a b => (a - meanR xs) * (b - meanR ys)) xs ys).sum) / xs.length

/-- Model of a nan-skipping sum (`np.sum` dispatches to xarray's `sum`,
skipna by default): always a finite number, 0 on an all-missing series. -/
noncomputable def nansum (s : List Val) : Val := Val.fin (toReals s).sum

/-- Model of xarray `mean(dim='time')` (skipna): mean of the finite entries,
NaN when there are none. -/
noncomputable def nanmean (s : List Val) : Val :=
  if toReals s = [] then Val.undef else Val.fin (meanR (toReals s))

/-- Model of xarray `std(dim='time')` (skipna, ddof = 0): population standard
deviation of the finite entries, NaN when there are none. -/
noncomputable def nanstd (s : List Val) : Val :=
  if toReals s = [] then Val.undef else Val.fin (Real.sqrt (popVar (toReals s)))

/-- A labeled array with a 'time' dimension: named non-time dimensions with
their coordinate labels, time coordinates, and one series per non-time cell
(the data of an N-dimensional array flattened over its non-time dimensions). -/
structure DataArray where
  cellDims : List String
  cellCoords : List (List ℤ)
  timeCoords : List ℤ
  data : List (List Val)

/-- A statistic: a labeled array with the 'time' dimension reduced away. -/
structure Statistic where
  cellDims : List String
  cellCoords : List (List ℤ)
  cells : List Val

/-- Well-formedness: every series spans the time axis and the time
coordinates are distinct. -/
structure DataArray.WF (a : DataArray) : Prop where
  rows : ∀ s ∈ a.data, s.length = a.timeCoords.length
  nodup : a.timeCoords.Nodup

/-- All entries of the array are finite numbers. -/
def DataArray.noUndef (a : DataArray) : Prop :=
  ∀ s ∈ a.data, ∀ v ∈ s, v.isFin = true

/-- Elementwise map over a statistic. -/
def Statistic.map1 (f : Val → Val) (s : Statistic) : Statistic :=
  ⟨s.cellDims, s.cellCoords, s.cells.map f⟩

/-- Elementwise combination of two statistics, with xarray-style broadcasting
of a dimensionless (scalar) statistic against the other's cells.  The model
covers the shapes the library produces: equal dims, or one side a scalar. -/
def Statistic.map2 (f : Val → Val → Val) (s t : Statistic) : Statistic :=
  if s.cellDims = t.cellDims then
    ⟨s.cellDims, s.cellCoords, List.zipWith f s.cells t.cells⟩
  else if s.cellDims = [] then
    ⟨t.cellDims, t.cellCoords, t.cells.map (f (s.cells.headD Val.undef))⟩
  else if t.cellDims = [] then
    ⟨s.cellDims, s.cellCoords, s.cells.map (fun v => f v (t.cells.headD Val.undef))⟩
  else
    ⟨s.cellDims, s.cellCoords, []⟩

/-- Reduction of each cell's series to one value. -/
def DataArray.reduceTime (f : List Val → Val) (a : DataArray) : Statistic :=
  ⟨a.cellDims, a.cellCoords, a.data.map f⟩

/-- Model of `x.mean(dim='time')`. -/
noncomputable def DataArray.meanTime (a : DataArray) : Statistic :=
  a.reduceTime nanmean

/-- Model of `x.std(dim='time')` (population, xarray default ddof = 0). -/
noncomputable def DataArray.stdTime (a : DataArray) : Statistic :=
  a.reduceTime nanstd

/-- Model of `np.sum(-, axis=0)` on an array whose first dimension is time:
dispatches to the labeled array's nan-skipping sum over time. -/
noncomputable def DataArray.sumTime (a : DataArray) : Statistic :=
  a.reduceTime nansum

/-- Elementwise map over an array. -/
def DataArray.map1 (f : Val → Val) (a : DataArray) : DataArray :=
  ⟨a.cellDims, a.cellCoords, a.timeCoords, a.data.map (fun s => s.map f)⟩

/-- Elementwise combination of two arrays sharing the time axis, with
broadcasting of a time-only (no non-time dims) array over the other's cells. -/
def DataArray.map2 (f : Val → Val → Val) (a b : DataArray) : DataArray :=
  if a.cellDims = b.cellDims then
    ⟨a.cellDims, a.cellCoords, a.timeCoords,
      List.zipWith (List.zipWith f) a.data b.data⟩
  else if a.cellDims = [] then
    ⟨b.cellDims, b.cellCoords, b.timeCoords,
      b.data.map (fun s => List.zipWith f (a.data.headD []) s)⟩
  else if b.cellDims = [] then
    ⟨a.cellDims, a.cellCoords, a.timeCoords,
      a.data.map (fun s => List.zipWith f s (b.data.headD []))⟩
  else
    ⟨a.cellDims, a.cellCoords, a.timeCoords, []⟩

/-- Combination of an array with a statistic (e.g. `x - xmean`): the statistic
is broadcast along time, with scalar-statistic broadcasting across cells. -/
def DataArray.map2S (f : Val → Val → Val) (a : DataArray) (t : Statistic) :
    DataArray :=
  if a.cellDims = t.cellDims then
    ⟨a.cellDims, a.cellCoords, a.timeCoords,
      List.zipWith (fun s v => s.map (fun w => f w v)) a.data t.cells⟩
  else if t.cellDims = [] then
    ⟨a.cellDims, a.cellCoords, a.timeCoords,
      a.data.map (fun s => s.map (fun w => f w (t.cells.headD Val.undef)))⟩
  else if a.cellDims = [] then
    ⟨t.cellDims, t.cellCoords, a.timeCoords,
      t.cells.map (fun v => (a.data.headD []).map (fun w => f w v))⟩
  else
    ⟨a.cellDims, a.cellCoords, a.timeCoords, []⟩

/-- Combination of a statistic with an array (e.g. `slope*x`), the statistic
broadcast along time. -/
def Statistic.map2D (f : Val → Val → Val) (t : Statistic) (a : DataArray) :
    DataArray :=
  if t.cellDims = a.cellDims then
    ⟨t.cellDims, t.cellCoords, a.timeCoords,
      List.zipWith (fun v s => s.map (fun w => f v w)) t.cells a.data⟩
  else if a.cellDims = [] then
    ⟨t.cellDims, t.cellCoords, a.timeCoords,
      t.cells.map (fun v => (a.data.headD []).map (fun w => f v w))⟩
  else if t.cellDims = [] then
    ⟨a.cellDims, a.cellCoords, a.timeCoords,
      a.data.map (fun s => s.map (fun w => f (t.cells.headD Val.undef) w))⟩
  else
    ⟨t.cellDims, t.cellCoords, a.timeCoords, []⟩

/-- Model of xarray `shift(time=k)`: the value at position t becomes the old
value at position t - k; positions shifted in from beyond the boundary are
missing (NaN). -/
def DataArray.shiftTime (k : ℤ) (a : DataArray) : DataArray :=
  ⟨a.cellDims, a.cellCoords, a.timeCoords,
    a.data.map (fun s =>
      (List.range a.timeCoords.length).map (fun (t : ℕ) =>
        if 0 ≤ (t : ℤ) - k ∧ (t : ℤ) - k < (a.timeCoords.length : ℤ) then
          s.getD ((t : ℤ) - k).toNat Val.undef
        else Val.undef))⟩

/-- Model of `dropna(dim='time', how='all')`: remove the time positions at
which every cell is missing. -/
def DataArray.dropnaAll (a : DataArray) : DataArray :=
  let keep := (List.range a.timeCoords.length).filter
    (fun t => a.data.any (fun s => (s.getD t Val.undef).isFin))
  ⟨a.cellDims, a.cellCoords,
    keep.map (fun t => a.timeCoords.getD t 0),
    a.data.map (fun s => keep.map (fun t => s.getD t Val.undef))⟩

/-- Model of `xr.align(x, y)` (inner join): both arrays are reindexed to the
time coordinates common to both, in the first array's coordinate order. -/
def alignTime (a b : DataArray) : DataArray × DataArray :=
  let common := a.timeCoords.filter (fun c => b.timeCoords.contains c)
  (⟨a.cellDims, a.cellCoords, common,
      a.data.map (fun s => common.map (fun c => s.getD (a.timeCoords.indexOf c) Val.undef))⟩,
   ⟨b.cellDims, b.cellCoords, common,
      b.data.map (fun s => common.map (fun c => s.getD (b.timeCoords.indexOf c) Val.undef))⟩)

/-- Step 1 of every mvstats function: `if lag != 0: a =
a.shift(time=-lag).dropna(dim='time', how='all')`. -/
def lagPrep (a : DataArray) (lag : ℤ) : DataArray :=
  if lag = 0 then a else (a.shiftTime (-lag)).dropnaAll

/-- Centered moving-average value at position t of a series, window w: defined
only when the window fits entirely in range and all w entries are finite
(xarray rolling defaults min_periods to the window size).  xarray rejects a
non-positive window (ValueError: window must be > 0); the model conservatively
renders that, and the empty-window mean, as everywhere-undefined. -/
noncomputable def windowMeanCenter (w : ℕ) (s : List Val) (t : ℕ) : Val :=
  if w = 0 then Val.undef else
  let lo : ℤ := (t : ℤ) - ((w - 1) / 2 : ℕ)
  if 0 ≤ lo ∧ lo + w ≤ s.length then
    let vals := (List.range w).map (fun j => s.getD (lo.toNat + j) Val.undef)
    if vals.all Val.isFin then Val.fin ((toReals vals).sum / w) else Val.undef
  else Val.undef

/-- Model of `y.rolling(time=w, center=True).mean()`. -/
noncomputable def DataArray.rollingMeanCenter (w : ℕ) (a : DataArray) : DataArray :=
  ⟨a.cellDims, a.cellCoords, a.timeCoords,
    a.data.map (fun s => (List.range a.timeCoords.length).map (windowMeanCenter w s))⟩

/-- `cov` from src/mvstats/mvstats.py lines 7-37: lag-shift, align, then
population covariance along time (`np.sum((x-xmean)*(y-ymean), axis=0)/n`). -/
noncomputable def cov (x y : DataArray) (lagx lagy : ℤ) : Statistic :=
  let x1 := lagPrep x lagx
  let y1 := lagPrep y lagy
  let p := alignTime x1 y1
  let n := p.1.timeCoords.length
  let xmean := p.1.meanTime
  let ymean := p.2.meanTime
  Statistic.map1 (fun v => v.div (Val.fin n))
    (DataArray.sumTime
      (DataArray.map2 Val.mul (p.1.map2S Val.sub xmean) (p.2.map2S Val.sub ymean)))

/-- `cor` from src/mvstats/mvstats.py lines 39-72: same preprocessing and
covariance, then `cov/(xstd*ystd)`. -/
noncomputable def cor (x y : DataArray) (lagx lagy : ℤ) : Statistic :=
  let x1 := lagPrep x lagx
  let y1 := lagPrep y lagy
  let p := alignTime x1 y1
  let n := p.1.timeCoords.length
  let xmean := p.1.meanTime
  let ymean := p.2.meanTime
  let xstd := p.1.stdTime
  let ystd := p.2.stdTime
  let c := Statistic.map1 (fun v => v.div (Val.fin n))
    (DataArray.sumTime
      (DataArray.map2 Val.mul (p.1.map2S Val.sub xmean) (p.2.map2S Val.sub ymean)))
  Statistic.map2 Val.div c (Statistic.map2 Val.mul xstd ystd)

/-- `reg` from src/mvstats/mvstats.py lines 74-108: same preprocessing and
covariance, then `slope = cov/(xstd**2)` and `intercept = ymean - xmean*slope`. -/
noncomputable def reg (x y : DataArray) (lagx lagy : ℤ) : Statistic × Statistic :=
  let x1 := lagPrep x lagx
  let y1 := lagPrep y lagy
  let p := alignTime x1 y1
  let n := p.1.timeCoords.length
  let xmean := p.1.meanTime
  let ymean := p.2.meanTime
  let xstd := p.1.stdTime
  let c := Statistic.map1 (fun v => v.div (Val.fin n))
    (DataArray.sumTime
      (DataArray.map2 Val.mul (p.1.map2S Val.sub xmean) (p.2.map2S Val.sub ymean)))
  let slope := Statistic.map2 Val.div c (Statistic.map1 Val.sq xstd)
  let intercept := Statistic.map2 Val.sub ymean (Statistic.map2 Val.mul xmean slope)
  (slope, intercept)

/-- The t-statistic formula of linregress_ND: `cor*np.sqrt(n-2)/np.sqrt(1-cor**2)`. -/
noncomputable def Val.tstat (c : Val) (n : ℕ) : Val :=
  Val.div (Val.mul c (Val.sqrt (Val.fin ((n : ℝ) - 2))))
    (Val.sqrt (Val.sub (Val.fin 1) (Val.sq c)))

/-- Model of scipy's Student-t survival function `t.sf(x, df)`, in terms of an
arbitrary CDF of the t distribution with df degrees of freedom: sf = 1 - cdf;
scipy returns NaN for a non-positive df or a NaN argument. -/
noncomputable def tsf (tcdf : ℤ → ℝ → ℝ) (df : ℤ) : Val → Val
  | Val.fin a => if df ≤ 0 then Val.undef else Val.fin (1 - tcdf df a)
  | Val.undef => Val.undef

/-- The six statistics returned by linregress_ND. -/
structure LinResult where
  cov : Statistic
  cor : Statistic
  slope : Statistic
  intercept : Statistic
  pval : Statistic
  stderr : Statistic

/-- `linregress_ND` from src/mvstats/mvstats.py lines 110-156, parametric in
the Student-t CDF supplied by scipy: covariance, correlation, slope and
intercept as in cov/cor/reg, then `tstats = cor*np.sqrt(n-2)/np.sqrt(1-cor**2)`,
`stderr = slope/tstats`, `pval = t.sf(np.abs(tstats), n-2)*2` rewrapped as a
labeled array on cor's dims and coords. -/
noncomputable def linregress_ND (tcdf : ℤ → ℝ → ℝ) (x y : DataArray)
    (lagx lagy : ℤ) : LinResult :=
  let x1 := lagPrep x lagx
  let y1 := lagPrep y lagy
  let p := alignTime x1 y1
  let n := p.1.timeCoords.length
  let xmean := p.1.meanTime
  let ymean := p.2.meanTime
  let xstd := p.1.stdTime
  let ystd := p.2.stdTime
  let c := Statistic.map1 (fun v => v.div (Val.fin n))
    (DataArray.sumTime
      (DataArray.map2 Val.mul (p.1.map2S Val.sub xmean) (p.2.map2S Val.sub ymean)))
  let r := Statistic.map2 Val.div c (Statistic.map2 Val.mul xstd ystd)
  let slope := Statistic.map2 Val.div c (Statistic.map1 Val.sq xstd)
  let intercept := Statistic.map2 Val.sub ymean (Statistic.map2 Val.mul xmean slope)
  let tstats := Statistic.map1 (fun v => v.tstat n) r
  let stderr := Statistic.map2 Val.div slope tstats
  let pval : Statistic :=
    ⟨r.cellDims, r.cellCoords,
      tstats.cells.map (fun v => Val.mul (tsf tcdf ((n : ℤ) - 2) v.abs) (Val.fin 2))⟩
  ⟨c, r, slope, intercept, pval, stderr⟩

/-- Mean over every dimension at once, model of `y.mean()` (skipna). -/
noncomputable def DataArray.globalMean (a : DataArray) : Val :=
  nanmean (a.data.foldr (fun s acc => s ++ acc) [])

/-- The index array of detrend_ND_xr:
`xr.DataArray(np.arange(y.shape[0]), dims=['time'], coords=[y.time])`. -/
def detrendIndex (y : DataArray) : DataArray :=
  ⟨[], [], y.timeCoords,
    [(List.range y.timeCoords.length).map (fun (t : ℕ) => Val.fin t)]⟩

/-- `detrend_ND_xr` from src/mvstats/mvstats.py lines 158-182: a centered
rolling mean of y (the subsequent `dropna` is commented out in the source),
regression of the smoothed series against the index array, and
`det = y - (slope*x + intercept) + y.mean()`. -/
noncomputable def detrend_ND_xr (y : DataArray) (rolling_mean_window : ℕ) :
    DataArray :=
  let y_deseason := y.rollingMeanCenter rolling_mean_window
  let x := detrendIndex y
  let si := reg x y_deseason 0 0
  let y_trend := (Statistic.map2D Val.mul si.1 x).map2S Val.add si.2
  (y.map2 Val.sub y_trend).map1 (fun v => v.add y.globalMean)

/-- The series of y shifted backward by one time step constructed by hand:
the last time position, which the shift makes undefined, is removed, so the
values are each series' tail over all but the last time coordinate. -/
def byHandShift (y : DataArray) : DataArray :=
  ⟨y.cellDims, y.cellCoords, y.timeCoords.dropLast, y.data.map List.tail⟩

/-! Concrete sample inputs used by the witnesses. -/

/-- A 1x3 sample array: one latitude cell, three time steps, values 1, 2, 3. -/
noncomputable def sampleX : DataArray :=
  ⟨["lat"], [[10]], [0, 1, 2], [[Val.fin 1, Val.fin 2, Val.fin 3]]⟩

/-- A 1x3 sample array: one latitude cell, three time steps, values 2, 4, 6. -/
noncomputable def sampleY : DataArray :=
  ⟨["lat"], [[10]], [0, 1, 2], [[Val.fin 2, Val.fin 4, Val.fin 6]]⟩

/-- A constant sample array: one latitude cell, three time steps, all values 2. -/
noncomputable def constX : DataArray :=
  ⟨["lat"], [[10]], [0, 1, 2], [[Val.fin 2, Val.fin 2, Val.fin 2]]⟩

/-- Concrete disjoint-time sample arrays. -/
noncomputable def sampleP : DataArray :=
  ⟨["lat"], [[10]], [0, 1], [[Val.fin 1, Val.fin 2]]⟩

/-- Time coordinates share nothing with sampleP's. -/
noncomputable def sampleQ : DataArray :=
  ⟨["lat"], [[10]], [5, 6], [[Val.fin 3, Val.fin 4]]⟩

/-- A pure linear trend over four time steps: y = 1 + 2t, a 1-D array. -/
noncomputable def linY : DataArray :=
  ⟨[], [], [0, 1, 2, 3], [[Val.fin 1, Val.fin 3, Val.fin 5, Val.fin 7]]⟩

/-- A non-linear 1-D sample over five time steps: values 0, 3, 0, 3, 9, whose
centered window-3 moving averages are 1, 2, 4 at the interior positions. -/
noncomputable def bumpY : DataArray :=
  ⟨[], [], [0, 1, 2, 3, 4], [[Val.fin 0, Val.fin 3, Val.fin 0, Val.fin 3, Val.fin 9]]⟩

/-- Step 3 of detrend_ND_xr as written in the source: the regression of the
smoothed series (kept at full length, the dropna being commented out) against
the index array. -/
noncomputable def detrendFitCode (y : DataArray) (w : ℕ) : Statistic × Statistic :=
  reg (detrendIndex y) (y.rollingMeanCenter w) 0 0

/-- Modelled from the spec: the regression step as the spec describes it, the
undefined smoothed edge positions dropped before the regression so that
alignment restricts the fit to the positions where the moving average is
defined.  For comparison with `detrendFitCode`. -/
noncomputable def detrendFitSpec (y : DataArray) (w : ℕ) : Statistic × Statistic :=
  reg (detrendIndex y) ((y.rollingMeanCenter w).dropnaAll) 0 0

/-! Helper lemmas. -/

theorem lagPrep_zero (a : DataArray) : lagPrep a 0 = a := rfl

theorem zipWith_congr_mem {α β γ : Type} {f g : α → β → γ} :
    ∀ (l₁ : List α) (l₂ : List β),
      (∀ a ∈ l₁, ∀ b ∈ l₂, f a b = g a b) →
      List.zipWith f l₁ l₂ = List.zipWith g l₁ l₂
  | [], _, _ => by simp
  | _ :: _, [], _ => by simp
  | a :: l₁, b :: l₂, h => by
    simp only [List.zipWith_cons_cons]
    refine congrArg₂ _ (h a (by simp) b (by simp)) ?_
    exact zipWith_congr_mem l₁ l₂ (fun a ha b hb => h a (by simp [ha]) b (by simp [hb]))

theorem map_getD_indexOf_self {s : List Val} (tc : List ℤ) (h : tc.Nodup)
    (hl : s.length = tc.length) :
    tc.map (fun c => s.getD (tc.indexOf c) Val.undef) = s := by
  apply List.ext_getElem
  · simp [hl]
  · intro i h₁ h₂
    simp only [List.getElem_map]
    have hi : tc.indexOf tc[i] = i := List.get_indexOf h ⟨i, by simpa using h₁⟩
    rw [hi, List.getD_eq_getElem?_getD, List.getElem?_eq_getElem h₂]
    rfl

theorem alignTime_self (a b : DataArray) (hwa : a.WF) (hwb : b.WF)
    (ht : a.timeCoords = b.timeCoords) : alignTime a b = (a, b) := by
  have hfil : a.timeCoords.filter (fun c => b.timeCoords.contains c) = a.timeCoords := by
    apply List.filter_eq_self.mpr
    intro c hc
    simpa [List.elem_eq_mem, ← ht] using hc
  unfold alignTime
  simp only [hfil, Prod.mk.injEq]
  constructor
  · cases a with
    | mk cd cc tc da =>
      simp only [DataArray.mk.injEq, true_and]
      apply List.map_congr_left ?_ |>.trans (List.map_id da)
      intro s hs
      exact map_getD_indexOf_self tc hwa.nodup (hwa.rows s hs)
  · cases b with
    | mk cd cc tc da =>
      simp only at ht
      simp only [DataArray.mk.injEq, ht, true_and]
      apply List.map_congr_left ?_ |>.trans (List.map_id da)
      intro s hs
      exact map_getD_indexOf_self tc hwb.nodup (hwb.rows s hs)

theorem toReals_map_fin (rs : List ℝ) : toReals (rs.map Val.fin) = rs := by
  induction rs with
  | nil => rfl
  | cons a l ih => simp [toReals, Val.toOption] at ih ⊢; exact ih

theorem eq_toReals_map_fin {s : List Val} (h : ∀ v ∈ s, v.isFin = true) :
    s = (toReals s).map Val.fin := by
  induction s with
  | nil => rfl
  | cons v l ih =>
    cases v with
    | undef => exact absurd (h Val.undef (by simp)) (by simp [Val.isFin])
    | fin a =>
      simp only [toReals, List.filterMap_cons, Val.toOption, List.map_cons]
      exact congrArg _ (ih (fun v hv => h v (by simp [hv])))

theorem length_toReals {s : List Val} (h : ∀ v ∈ s, v.isFin = true) :
    (toReals s).length = s.length := by
  conv_rhs => rw [eq_toReals_map_fin h]
  simp

theorem nanmean_map_fin {rs : List ℝ} (h : rs ≠ []) :
    nanmean (rs.map Val.fin) = Val.fin (meanR rs) := by
  simp [nanmean, toReals_map_fin, h]

theorem nanstd_map_fin {rs : List ℝ} (h : rs ≠ []) :
    nanstd (rs.map Val.fin) = Val.fin (Real.sqrt (popVar rs)) := by
  simp [nanstd, toReals_map_fin, h]

theorem nansum_map_fin (rs : List ℝ) : nansum (rs.map Val.fin) = Val.fin rs.sum := by
  simp [nansum, toReals_map_fin]

theorem sub_map_fin (rs : List ℝ) (m : ℝ) :
    (rs.map Val.fin).map (fun w => Val.sub w (Val.fin m)) =
      (rs.map (fun a => a - m)).map Val.fin := by
  simp only [List.map_map]
  exact List.map_congr_left (fun a _ => rfl)

theorem zipWith_mul_map_fin (as bs : List ℝ) :
    List.zipWith Val.mul (as.map Val.fin) (bs.map Val.fin) =
      (List.zipWith (fun a b => a * b) as bs).map Val.fin := by
  rw [List.zipWith_map, List.map_zipWith]
  rfl

/-- On already aligned inputs of equal non-time shape and zero lags, `cov`
reduces to its per-cell computation. -/
theorem cov_aligned (x y : DataArray) (hwx : x.WF) (hwy : y.WF)
    (ht : x.timeCoords = y.timeCoords) (hd : x.cellDims = y.cellDims) :
    cov x y 0 0 = ⟨x.cellDims, x.cellCoords,
      List.zipWith (fun sx sy => Val.div
        (nansum (List.zipWith Val.mul
          (sx.map (fun w => Val.sub w (nanmean sx)))
          (sy.map (fun w => Val.sub w (nanmean sy)))))
        (Val.fin x.timeCoords.length)) x.data y.data⟩ := by
  unfold cov
  simp only [lagPrep_zero, alignTime_self x y hwx hwy ht]
  simp only [DataArray.map2S, DataArray.meanTime, DataArray.reduceTime,
    DataArray.map2, DataArray.sumTime, Statistic.map1, hd, eq_self_iff_true, if_true,
    List.zipWith_map_right, List.zipWith_same, List.zipWith_map, List.map_zipWith,
    List.zipWith_map_left]

/-- The covariance cell computed by the source on two fully finite series. -/
theorem cov_cell_fin (as bs : List ℝ) (n : ℕ) (hn : n ≠ 0) (hna : as.length = n)
    (hb : bs ≠ []) :
    Val.div
      (nansum (List.zipWith Val.mul
        ((as.map Val.fin).map (fun w => Val.sub w (nanmean (as.map Val.fin))))
        ((bs.map Val.fin).map (fun w => Val.sub w (nanmean (bs.map Val.fin))))))
      (Val.fin n) = Val.fin (popCov as bs) := by
  have ha : as ≠ [] := by
    intro h; rw [h] at hna; simp at hna; exact hn hna.symm
  rw [nanmean_map_fin ha, nanmean_map_fin hb, sub_map_fin, sub_map_fin,
    zipWith_mul_map_fin, nansum_map_fin, List.zipWith_map]
  have : Val.div (Val.fin (List.zipWith
      (fun a b => (a - meanR as) * (b - meanR bs)) as bs).sum) (Val.fin n) =
      Val.fin ((List.zipWith (fun a b => (a - meanR as) * (b - meanR bs)) as bs).sum / n) := by
    simp only [Val.div]
    rw [if_neg (by exact_mod_cast hn)]
  rw [this, popCov, hna]

theorem popCov_self (l : List ℝ) : popCov l l = popVar l := by
  unfold popCov popVar
  rw [List.zipWith_same]
  congr 1
  exact congrArg _ (List.map_congr_left (fun a _ => (pow_two _).symm))

theorem sampleX_wf : sampleX.WF :=
  ⟨by intro s hs; simp [sampleX] at hs; subst hs; rfl, by decide⟩

theorem sampleY_wf : sampleY.WF :=
  ⟨by intro s hs; simp [sampleY] at hs; subst hs; rfl, by decide⟩

theorem sampleX_noUndef : sampleX.noUndef := by
  intro s hs v hv
  simp [sampleX] at hs
  subst hs
  simp at hv
  rcases hv with rfl | rfl | rfl <;> rfl

theorem sampleY_noUndef : sampleY.noUndef := by
  intro s hs v hv
  simp [sampleY] at hs
  subst hs
  simp at hv
  rcases hv with rfl | rfl | rfl <;> rfl

/-! Claim theorems. -/

/-- C1: for aligned inputs with n >= 1 shared time positions and zero lags,
`cov` returns the population covariance (denominator n) of each pair of cell
series, on an array carrying exactly the non-time dimensions and coordinates
of the inputs (the 'time' dimension is reduced away); in particular
`cov(x, x)` is the population variance of each cell series of x. -/
theorem cov_zero_lag_is_population_covariance (x y : DataArray)
    (hwx : x.WF) (hwy : y.WF)
    (ht : x.timeCoords = y.timeCoords) (hd : x.cellDims = y.cellDims)
    (hn : x.timeCoords ≠ []) (hux : x.noUndef) (huy : y.noUndef) :
    (cov x y 0 0).cellDims = x.cellDims ∧
    (cov x y 0 0).cellCoords = x.cellCoords ∧
    (cov x y 0 0).cells =
      List.zipWith (fun sx sy => Val.fin (popCov (toReals sx) (toReals sy)))
        x.data y.data ∧
    (cov x x 0 0).cells = x.data.map (fun sx => Val.fin (popVar (toReals sx))) := by
  have hlen : x.timeCoords.length ≠ 0 := fun h => hn (List.length_eq_zero.mp h)
  have key : ∀ z : DataArray, z.WF → z.noUndef → x.timeCoords = z.timeCoords →
      x.cellDims = z.cellDims →
      (cov x z 0 0).cells =
        List.zipWith (fun sx sy => Val.fin (popCov (toReals sx) (toReals sy)))
          x.data z.data := by
    intro z hwz huz htz hdz
    rw [cov_aligned x z hwx hwz htz hdz]
    apply zipWith_congr_mem
    intro sx hsx sy hsy
    have hlx : (toReals sx).length = x.timeCoords.length := by
      rw [length_toReals (hux sx hsx)]; exact hwx.rows sx hsx
    have hby : toReals sy ≠ [] := by
      intro hnil
      have h1 : x.timeCoords.length = 0 := by
        rw [htz, ← hwz.rows sy hsy, ← length_toReals (huz sy hsy), hnil]
        rfl
      exact hlen h1
    conv_lhs => rw [eq_toReals_map_fin (hux sx hsx), eq_toReals_map_fin (huz sy hsy)]
    exact cov_cell_fin (toReals sx) (toReals sy) x.timeCoords.length hlen hlx hby
  refine ⟨?_, ?_, key y hwy huy ht hd, ?_⟩
  · rw [cov_aligned x y hwx hwy ht hd]
  · rw [cov_aligned x y hwx hwy ht hd]
  · rw [key x hwx hux rfl rfl, List.zipWith_same]
    exact List.map_congr_left (fun sx _ => congrArg _ (popCov_self _))

theorem zipWith_zipWith_same {α β γ δ ε : Type} {f : γ → δ → ε} {g : α → β → γ}
    {h : α → β → δ} : ∀ (l₁ : List α) (l₂ : List β),
    List.zipWith f (List.zipWith g l₁ l₂) (List.zipWith h l₁ l₂) =
      List.zipWith (fun a b => f (g a b) (h a b)) l₁ l₂
  | [], _ => by simp
  | _ :: _, [] => by simp
  | a :: l₁, b :: l₂ => by
    simp only [List.zipWith_cons_cons]
    exact congrArg _ (zipWith_zipWith_same l₁ l₂)

theorem popVar_nonneg (l : List ℝ) : 0 ≤ popVar l := by
  unfold popVar
  apply div_nonneg _ (Nat.cast_nonneg _)
  apply List.sum_nonneg
  intro a ha
  rcases List.mem_map.mp ha with ⟨b, _, hb⟩
  exact hb ▸ sq_nonneg _

/-- On already aligned inputs of equal non-time shape and zero lags, `cor`
reduces to its per-cell computation. -/
theorem cor_aligned (x y : DataArray) (hwx : x.WF) (hwy : y.WF)
    (ht : x.timeCoords = y.timeCoords) (hd : x.cellDims = y.cellDims) :
    cor x y 0 0 = ⟨x.cellDims, x.cellCoords,
      List.zipWith (fun sx sy => Val.div
        (Val.div (nansum (List.zipWith Val.mul
            (sx.map (fun w => Val.sub w (nanmean sx)))
            (sy.map (fun w => Val.sub w (nanmean sy)))))
          (Val.fin x.timeCoords.length))
        (Val.mul (nanstd sx) (nanstd sy))) x.data y.data⟩ := by
  unfold cor
  simp only [lagPrep_zero, alignTime_self x y hwx hwy ht]
  simp only [DataArray.map2S, DataArray.meanTime, DataArray.stdTime,
    DataArray.reduceTime, DataArray.map2, DataArray.sumTime, Statistic.map1,
    Statistic.map2, hd, eq_self_iff_true, if_true, List.zipWith_map_right,
    List.zipWith_same, List.zipWith_map, List.map_zipWith, List.zipWith_map_left,
    zipWith_zipWith_same]

/-- Witness for C1 at a concrete input. -/
theorem cov_zero_lag_is_population_covariance_witness :
    (sampleX.WF ∧ sampleY.WF ∧ sampleX.timeCoords = sampleY.timeCoords ∧
      sampleX.cellDims = sampleY.cellDims ∧ sampleX.timeCoords ≠ [] ∧
      sampleX.noUndef ∧ sampleY.noUndef) ∧
    ((cov sampleX sampleY 0 0).cellDims = sampleX.cellDims ∧
      (cov sampleX sampleY 0 0).cellCoords = sampleX.cellCoords ∧
      (cov sampleX sampleY 0 0).cells =
        List.zipWith (fun sx sy => Val.fin (popCov (toReals sx) (toReals sy)))
          sampleX.data sampleY.data ∧
      (cov sampleX sampleX 0 0).cells =
        sampleX.data.map (fun sx => Val.fin (popVar (toReals sx)))) :=
  ⟨⟨sampleX_wf, sampleY_wf, rfl, rfl, by decide, sampleX_noUndef, sampleY_noUndef⟩,
    cov_zero_lag_is_population_covariance sampleX sampleY sampleX_wf sampleY_wf
      rfl rfl (by decide) sampleX_noUndef sampleY_noUndef⟩

/-- The correlation cells on aligned fully finite inputs: population
covariance over the product of population standard deviations, per cell. -/
theorem cor_cells_popform (x z : DataArray)
    (hwx : x.WF) (hwz : z.WF)
    (htz : x.timeCoords = z.timeCoords) (hdz : x.cellDims = z.cellDims)
    (hn : x.timeCoords ≠ []) (hux : x.noUndef) (huz : z.noUndef) :
    (cor x z 0 0).cells =
      List.zipWith (fun sx sy =>
        Val.div (Val.fin (popCov (toReals sx) (toReals sy)))
          (Val.mul (Val.fin (Real.sqrt (popVar (toReals sx))))
            (Val.fin (Real.sqrt (popVar (toReals sy)))))) x.data z.data := by
  have hlen : x.timeCoords.length ≠ 0 := fun h => hn (List.length_eq_zero.mp h)
  rw [cor_aligned x z hwx hwz htz hdz]
  apply zipWith_congr_mem
  intro sx hsx sy hsy
  have hax : toReals sx ≠ [] := by
    intro hnil
    have h1 : x.timeCoords.length = 0 := by
      rw [← hwx.rows sx hsx, ← length_toReals (hux sx hsx), hnil]
      rfl
    exact hlen h1
  have hby : toReals sy ≠ [] := by
    intro hnil
    have h1 : x.timeCoords.length = 0 := by
      rw [htz, ← hwz.rows sy hsy, ← length_toReals (huz sy hsy), hnil]
      rfl
    exact hlen h1
  have hlx : (toReals sx).length = x.timeCoords.length := by
    rw [length_toReals (hux sx hsx)]; exact hwx.rows sx hsx
  conv_lhs => rw [eq_toReals_map_fin (hux sx hsx), eq_toReals_map_fin (huz sy hsy)]
  rw [cov_cell_fin (toReals sx) (toReals sy) x.timeCoords.length hlen hlx hby,
    nanstd_map_fin hax, nanstd_map_fin hby]

/-- C8: for aligned inputs with zero lags, `cor` is the population covariance
divided by the product of the population (denominator n) standard deviations,
per non-time cell; in particular for an x of everywhere nonzero variance,
`cor(x, x)` is exactly 1 in the exact-real idealization. -/
theorem cor_zero_lag_is_cov_over_stds (x y : DataArray)
    (hwx : x.WF) (hwy : y.WF)
    (ht : x.timeCoords = y.timeCoords) (hd : x.cellDims = y.cellDims)
    (hn : x.timeCoords ≠ []) (hux : x.noUndef) (huy : y.noUndef) :
    (cor x y 0 0).cells =
      List.zipWith (fun sx sy =>
        Val.div (Val.fin (popCov (toReals sx) (toReals sy)))
          (Val.mul (Val.fin (Real.sqrt (popVar (toReals sx))))
            (Val.fin (Real.sqrt (popVar (toReals sy)))))) x.data y.data ∧
    ((∀ sx ∈ x.data, popVar (toReals sx) ≠ 0) →
      (cor x x 0 0).cells = x.data.map (fun sx => Val.fin 1)) := by
  have key := cor_cells_popform
  refine ⟨key x y hwx hwy ht hd hn hux huy, ?_⟩
  intro hvar
  rw [key x x hwx hwx rfl rfl hn hux hux, List.zipWith_same]
  apply List.map_congr_left
  intro sx hsx
  have hv := hvar sx hsx
  have hnn := popVar_nonneg (toReals sx)
  rw [popCov_self]
  have hmul : Val.mul (Val.fin (Real.sqrt (popVar (toReals sx))))
      (Val.fin (Real.sqrt (popVar (toReals sx)))) = Val.fin (popVar (toReals sx)) := by
    simp only [Val.mul]
    rw [Real.mul_self_sqrt hnn]
  rw [hmul]
  simp only [Val.div]
  rw [if_neg hv, div_self hv]

/-- Witness for C8 at a concrete input. -/
theorem cor_zero_lag_is_cov_over_stds_witness :
    (sampleX.WF ∧ sampleY.WF ∧ sampleX.timeCoords = sampleY.timeCoords ∧
      sampleX.cellDims = sampleY.cellDims ∧ sampleX.timeCoords ≠ [] ∧
      sampleX.noUndef ∧ sampleY.noUndef) ∧
    ((cor sampleX sampleY 0 0).cells =
      List.zipWith (fun sx sy =>
        Val.div (Val.fin (popCov (toReals sx) (toReals sy)))
          (Val.mul (Val.fin (Real.sqrt (popVar (toReals sx))))
            (Val.fin (Real.sqrt (popVar (toReals sy))))))
        sampleX.data sampleY.data ∧
    ((∀ sx ∈ sampleX.data, popVar (toReals sx) ≠ 0) →
      (cor sampleX sampleX 0 0).cells = sampleX.data.map (fun sx => Val.fin 1))) :=
  ⟨⟨sampleX_wf, sampleY_wf, rfl, rfl, by decide, sampleX_noUndef, sampleY_noUndef⟩,
    cor_zero_lag_is_cov_over_stds sampleX sampleY sampleX_wf sampleY_wf
      rfl rfl (by decide) sampleX_noUndef sampleY_noUndef⟩

theorem zipWith_zipWith_right_same {α β γ δ : Type} {f : α → γ → δ} {g : α → β → γ} :
    ∀ (l₁ : List α) (l₂ : List β),
    List.zipWith f l₁ (List.zipWith g l₁ l₂) =
      List.zipWith (fun a b => f a (g a b)) l₁ l₂
  | [], _ => by simp
  | _ :: _, [] => by simp
  | a :: l₁, b :: l₂ => by
    simp only [List.zipWith_cons_cons]
    exact congrArg _ (zipWith_zipWith_right_same l₁ l₂)

theorem zipWith_zipWith_left_same {α β γ δ : Type} {f : γ → α → δ} {g : α → β → γ} :
    ∀ (l₁ : List α) (l₂ : List β),
    List.zipWith f (List.zipWith g l₁ l₂) l₁ =
      List.zipWith (fun a b => f (g a b) a) l₁ l₂
  | [], _ => by simp
  | _ :: _, [] => by simp
  | a :: l₁, b :: l₂ => by
    simp only [List.zipWith_cons_cons]
    exact congrArg _ (zipWith_zipWith_left_same l₁ l₂)

theorem zipWith_left_swap {α β γ δ : Type} {f : β → γ → δ} {g : α → β → γ} :
    ∀ (l₁ : List α) (l₂ : List β),
    List.zipWith f l₂ (List.zipWith g l₁ l₂) =
      List.zipWith (fun a b => f b (g a b)) l₁ l₂
  | [], _ => by simp
  | _ :: _, [] => by simp
  | a :: l₁, b :: l₂ => by
    simp only [List.zipWith_cons_cons]
    exact congrArg _ (zipWith_left_swap l₁ l₂)

/-- On already aligned inputs of equal non-time shape and zero lags, `reg`
reduces to its per-cell computation. -/
theorem reg_aligned (x y : DataArray) (hwx : x.WF) (hwy : y.WF)
    (ht : x.timeCoords = y.timeCoords) (hd : x.cellDims = y.cellDims) :
    reg x y 0 0 =
      (⟨x.cellDims, x.cellCoords, List.zipWith (fun sx sy =>
          Val.div (Val.div (nansum (List.zipWith Val.mul
              (sx.map (fun w => Val.sub w (nanmean sx)))
              (sy.map (fun w => Val.sub w (nanmean sy)))))
            (Val.fin x.timeCoords.length)) (Val.sq (nanstd sx))) x.data y.data⟩,
       ⟨y.cellDims, y.cellCoords, List.zipWith (fun sx sy =>
          Val.sub (nanmean sy) (Val.mul (nanmean sx)
            (Val.div (Val.div (nansum (List.zipWith Val.mul
                (sx.map (fun w => Val.sub w (nanmean sx)))
                (sy.map (fun w => Val.sub w (nanmean sy)))))
              (Val.fin x.timeCoords.length)) (Val.sq (nanstd sx))))) x.data y.data⟩) := by
  unfold reg
  simp only [lagPrep_zero, alignTime_self x y hwx hwy ht]
  simp only [DataArray.map2S, DataArray.meanTime, DataArray.stdTime,
    DataArray.reduceTime, DataArray.map2, DataArray.sumTime, Statistic.map1,
    Statistic.map2, hd, eq_self_iff_true, if_true, List.zipWith_map_right,
    List.zipWith_same, List.zipWith_map, List.map_zipWith, List.zipWith_map_left,
    zipWith_zipWith_same, zipWith_zipWith_right_same, zipWith_zipWith_left_same,
    zipWith_left_swap, List.map_map, Function.comp]

theorem sq_nanstd_map_fin {rs : List ℝ} (h : rs ≠ []) :
    Val.sq (nanstd (rs.map Val.fin)) = Val.fin (popVar rs) := by
  rw [nanstd_map_fin h]
  simp only [Val.sq]
  rw [Real.sq_sqrt (popVar_nonneg rs)]

theorem zipWith_const_right {α β γ : Type} (f : β → γ) :
    ∀ (l₁ : List α) (l₂ : List β), l₁.length = l₂.length →
      List.zipWith (fun _ b => f b) l₁ l₂ = l₂.map f
  | [], [], _ => by simp
  | [], _ :: _, h => by simp at h
  | _ :: _, [], h => by simp at h
  | a :: l₁, b :: l₂, h => by
    simp only [List.zipWith_cons_cons, List.map_cons]
    exact congrArg _ (zipWith_const_right f l₁ l₂ (by simpa using h))

/-- C5 (amended): with zero lags, slope is the population covariance divided
by the population variance of x and intercept is mean_y - mean_x*slope, per
cell (both undefined where the variance is zero); the identity
mean(y) = slope*mean(x) + intercept holds whenever every cell of x has
nonzero variance. -/
theorem reg_zero_lag_slope_intercept (x y : DataArray)
    (hwx : x.WF) (hwy : y.WF)
    (ht : x.timeCoords = y.timeCoords) (hd : x.cellDims = y.cellDims)
    (hcc : x.cellCoords = y.cellCoords) (hdl : x.data.length = y.data.length)
    (hn : x.timeCoords ≠ []) (hux : x.noUndef) (huy : y.noUndef) :
    (reg x y 0 0).1.cells =
      List.zipWith (fun sx sy => Val.div (Val.fin (popCov (toReals sx) (toReals sy)))
        (Val.fin (popVar (toReals sx)))) x.data y.data ∧
    (reg x y 0 0).2.cells =
      List.zipWith (fun sx sy => Val.sub (Val.fin (meanR (toReals sy)))
        (Val.mul (Val.fin (meanR (toReals sx)))
          (Val.div (Val.fin (popCov (toReals sx) (toReals sy)))
            (Val.fin (popVar (toReals sx)))))) x.data y.data ∧
    ((∀ sx ∈ x.data, popVar (toReals sx) ≠ 0) →
      Statistic.map2 Val.add
          (Statistic.map2 Val.mul (reg x y 0 0).1 x.meanTime) (reg x y 0 0).2 =
        y.meanTime) := by
  have hlen : x.timeCoords.length ≠ 0 := fun h => hn (List.length_eq_zero.mp h)
  have hcell : ∀ sx ∈ x.data, ∀ sy ∈ y.data,
      toReals sx ≠ [] ∧ toReals sy ≠ [] ∧
        (toReals sx).length = x.timeCoords.length := by
    intro sx hsx sy hsy
    refine ⟨?_, ?_, ?_⟩
    · intro hnil
      exact hlen (by rw [← hwx.rows sx hsx, ← length_toReals (hux sx hsx), hnil]; rfl)
    · intro hnil
      exact hlen (by rw [ht, ← hwy.rows sy hsy, ← length_toReals (huy sy hsy), hnil]; rfl)
    · rw [length_toReals (hux sx hsx)]; exact hwx.rows sx hsx
  rw [reg_aligned x y hwx hwy ht hd]
  refine ⟨?_, ?_, ?_⟩
  · apply zipWith_congr_mem
    intro sx hsx sy hsy
    obtain ⟨hax, hby, hlx⟩ := hcell sx hsx sy hsy
    conv_lhs => rw [eq_toReals_map_fin (hux sx hsx), eq_toReals_map_fin (huy sy hsy)]
    rw [cov_cell_fin (toReals sx) (toReals sy) x.timeCoords.length hlen hlx hby,
      sq_nanstd_map_fin hax]
  · apply zipWith_congr_mem
    intro sx hsx sy hsy
    obtain ⟨hax, hby, hlx⟩ := hcell sx hsx sy hsy
    conv_lhs => rw [eq_toReals_map_fin (hux sx hsx), eq_toReals_map_fin (huy sy hsy)]
    rw [cov_cell_fin (toReals sx) (toReals sy) x.timeCoords.length hlen hlx hby,
      sq_nanstd_map_fin hax, nanmean_map_fin hax, nanmean_map_fin hby]
  · intro hvar
    simp only [Statistic.map2, DataArray.meanTime, DataArray.reduceTime, hd,
      eq_self_iff_true, if_true, Statistic.mk.injEq]
    refine ⟨trivial, hcc, ?_⟩
    rw [List.zipWith_map_right, zipWith_zipWith_left_same, zipWith_zipWith_same,
      ← zipWith_const_right nanmean x.data y.data hdl]
    apply zipWith_congr_mem
    intro sx hsx sy hsy
    obtain ⟨hax, hby, hlx⟩ := hcell sx hsx sy hsy
    rw [eq_toReals_map_fin (hux sx hsx), eq_toReals_map_fin (huy sy hsy),
      cov_cell_fin (toReals sx) (toReals sy) x.timeCoords.length hlen hlx hby,
      sq_nanstd_map_fin hax, nanmean_map_fin hax, nanmean_map_fin hby]
    have hv := hvar sx hsx
    have hdiveq : Val.div (Val.fin (popCov (toReals sx) (toReals sy)))
        (Val.fin (popVar (toReals sx))) =
        Val.fin (popCov (toReals sx) (toReals sy) / popVar (toReals sx)) := by
      simp only [Val.div]
      rw [if_neg hv]
    rw [hdiveq]
    show Val.fin _ = Val.fin _
    refine congrArg Val.fin ?_
    ring

theorem toReals_nil : toReals [] = [] := rfl

theorem toReals_fin_cons (a : ℝ) (s : List Val) :
    toReals (Val.fin a :: s) = a :: toReals s := by
  simp [toReals, Val.toOption]

theorem toReals_undef_cons (s : List Val) :
    toReals (Val.undef :: s) = toReals s := by
  simp [toReals, Val.toOption]

theorem Val.div_zero_denom (v : Val) : Val.div v (Val.fin 0) = Val.undef := by
  cases v <;> simp [Val.div]

theorem Val.mul_undef_left (v : Val) : Val.mul Val.undef v = Val.undef := by
  cases v <;> rfl

theorem Val.mul_undef_right (v : Val) : Val.mul v Val.undef = Val.undef := by
  cases v <;> rfl

theorem Val.sub_undef_right (v : Val) : Val.sub v Val.undef = Val.undef := by
  cases v <;> rfl

theorem Val.sub_undef_left (v : Val) : Val.sub Val.undef v = Val.undef := by
  cases v <;> rfl

theorem Val.add_undef_left (v : Val) : Val.add Val.undef v = Val.undef := by
  cases v <;> rfl

theorem Val.add_undef_right (v : Val) : Val.add v Val.undef = Val.undef := by
  cases v <;> rfl

theorem Val.div_undef_left (v : Val) : Val.div Val.undef v = Val.undef := by
  cases v <;> rfl

theorem Val.div_undef_right (v : Val) : Val.div v Val.undef = Val.undef := by
  cases v <;> rfl

theorem constX_wf : constX.WF :=
  ⟨by intro s hs; simp [constX] at hs; subst hs; rfl, by decide⟩

/-- Counterexample for C5 as stated: for a constant x (zero variance), the
returned slope and intercept are undefined, so mean(y) = slope*mean(x) +
intercept fails (its right side is NaN while mean(y) is a number). -/
theorem reg_mean_identity_fails_for_constant_x :
    Statistic.map2 Val.add
        (Statistic.map2 Val.mul (reg constX sampleY 0 0).1 constX.meanTime)
        (reg constX sampleY 0 0).2 ≠ sampleY.meanTime := by
  have h1 : nanmean [Val.fin 2, Val.fin 2, Val.fin 2] = Val.fin 2 := by
    unfold nanmean
    rw [toReals_fin_cons, toReals_fin_cons, toReals_fin_cons, toReals_nil,
      if_neg (by simp)]
    norm_num [meanR]
  have h2 : nanmean [Val.fin 2, Val.fin 4, Val.fin 6] = Val.fin 4 := by
    unfold nanmean
    rw [toReals_fin_cons, toReals_fin_cons, toReals_fin_cons, toReals_nil,
      if_neg (by simp)]
    norm_num [meanR]
  have h3 : Val.sq (nanstd [Val.fin 2, Val.fin 2, Val.fin 2]) = Val.fin 0 := by
    have hv : popVar [(2:ℝ), 2, 2] = 0 := by
      norm_num [popVar, meanR]
    unfold nanstd
    rw [toReals_fin_cons, toReals_fin_cons, toReals_fin_cons, toReals_nil,
      if_neg (by simp), hv, Real.sqrt_zero]
    norm_num [Val.sq]
  rw [reg_aligned constX sampleY constX_wf sampleY_wf rfl rfl]
  simp only [constX, sampleY, DataArray.meanTime, DataArray.reduceTime,
    Statistic.map2, List.zipWith_cons_cons, List.zipWith_nil_right,
    List.map_cons, List.map_nil, h1, h2, h3, Val.div_zero_denom,
    Val.mul_undef_left, Val.mul_undef_right, Val.sub_undef_right,
    Val.add_undef_left, eq_self_iff_true, if_true]
  intro h
  have hc := congrArg Statistic.cells h
  simp at hc

/-- Witness for C5 (amended) at a concrete input. -/
theorem reg_zero_lag_slope_intercept_witness :
    (sampleX.WF ∧ sampleY.WF ∧ sampleX.timeCoords = sampleY.timeCoords ∧
      sampleX.cellDims = sampleY.cellDims ∧ sampleX.cellCoords = sampleY.cellCoords ∧
      sampleX.data.length = sampleY.data.length ∧ sampleX.timeCoords ≠ [] ∧
      sampleX.noUndef ∧ sampleY.noUndef) ∧
    ((reg sampleX sampleY 0 0).1.cells =
      List.zipWith (fun sx sy => Val.div (Val.fin (popCov (toReals sx) (toReals sy)))
        (Val.fin (popVar (toReals sx)))) sampleX.data sampleY.data ∧
    (reg sampleX sampleY 0 0).2.cells =
      List.zipWith (fun sx sy => Val.sub (Val.fin (meanR (toReals sy)))
        (Val.mul (Val.fin (meanR (toReals sx)))
          (Val.div (Val.fin (popCov (toReals sx) (toReals sy)))
            (Val.fin (popVar (toReals sx)))))) sampleX.data sampleY.data ∧
    ((∀ sx ∈ sampleX.data, popVar (toReals sx) ≠ 0) →
      Statistic.map2 Val.add
          (Statistic.map2 Val.mul (reg sampleX sampleY 0 0).1 sampleX.meanTime)
          (reg sampleX sampleY 0 0).2 =
        sampleY.meanTime)) :=
  ⟨⟨sampleX_wf, sampleY_wf, rfl, rfl, rfl, rfl, by decide,
      sampleX_noUndef, sampleY_noUndef⟩,
    reg_zero_lag_slope_intercept sampleX sampleY sampleX_wf sampleY_wf
      rfl rfl rfl rfl (by decide) sampleX_noUndef sampleY_noUndef⟩

/-- C6: with zero lags, the covariance, correlation, slope and intercept
returned by linregress_ND coincide with the standalone cov, cor and reg on
the same inputs (the source duplicates the same computation verbatim), for
every inputs and every Student-t CDF. -/
theorem linregress_matches_standalone (tcdf : ℤ → ℝ → ℝ) (x y : DataArray) :
    (linregress_ND tcdf x y 0 0).cov = cov x y 0 0 ∧
    (linregress_ND tcdf x y 0 0).cor = cor x y 0 0 ∧
    (linregress_ND tcdf x y 0 0).slope = (reg x y 0 0).1 ∧
    (linregress_ND tcdf x y 0 0).intercept = (reg x y 0 0).2 :=
  ⟨rfl, rfl, rfl, rfl⟩

theorem mem_zipWith {α β γ : Type} {f : α → β → γ} {c : γ} :
    ∀ {l₁ : List α} {l₂ : List β}, c ∈ List.zipWith f l₁ l₂ →
      ∃ a ∈ l₁, ∃ b ∈ l₂, c = f a b
  | [], _, h => by simp at h
  | _ :: _, [], h => by simp at h
  | a :: l₁, b :: l₂, h => by
    rw [List.zipWith_cons_cons, List.mem_cons] at h
    rcases h with h | h
    · exact ⟨a, by simp, b, by simp, h⟩
    · rcases mem_zipWith h with ⟨a1, ha1, b1, hb1, hc⟩
      exact ⟨a1, by simp [ha1], b1, by simp [hb1], hc⟩

theorem alignTime_disjoint (a b : DataArray)
    (hdis : ∀ c ∈ a.timeCoords, c ∉ b.timeCoords) :
    alignTime a b =
      (⟨a.cellDims, a.cellCoords, [], a.data.map (fun s => [])⟩,
       ⟨b.cellDims, b.cellCoords, [], b.data.map (fun s => [])⟩) := by
  have hfil : a.timeCoords.filter (fun c => b.timeCoords.contains c) = [] := by
    apply List.filter_eq_nil.mpr
    intro c hc
    simpa [List.elem_eq_mem] using hdis c hc
  unfold alignTime
  rw [hfil]
  simp

theorem nanstd_nil : nanstd [] = Val.undef := by simp [nanstd, toReals_nil]

theorem nanmean_nil : nanmean [] = Val.undef := by simp [nanmean, toReals_nil]

/-- In the disjoint-coordinates (empty overlap) case the covariance cell is
0/0, hence undefined. -/
theorem cov_disjoint_cells (p q : DataArray)
    (hdis : ∀ c ∈ p.timeCoords, c ∉ q.timeCoords) (hd : p.cellDims = q.cellDims) :
    (cov p q 0 0).cells = List.zipWith (fun _ _ => Val.undef) p.data q.data := by
  unfold cov
  simp only [lagPrep_zero, alignTime_disjoint p q hdis]
  simp only [DataArray.map2S, DataArray.meanTime, DataArray.reduceTime,
    DataArray.map2, DataArray.sumTime, Statistic.map1, hd, eq_self_iff_true,
    if_true, List.map_map, List.zipWith_map, List.map_zipWith, List.map_nil,
    List.length_nil, Function.comp, List.zipWith_same]
  apply zipWith_congr_mem
  intro a _ b _
  simp [List.zipWith_nil_left, nansum, toReals_nil, Val.div]

/-- In the empty-overlap case the correlation cell is undefined. -/
theorem cor_disjoint_cells (p q : DataArray)
    (hdis : ∀ c ∈ p.timeCoords, c ∉ q.timeCoords) (hd : p.cellDims = q.cellDims) :
    (cor p q 0 0).cells = List.zipWith (fun _ _ => Val.undef) p.data q.data := by
  unfold cor
  simp only [lagPrep_zero, alignTime_disjoint p q hdis]
  simp only [DataArray.map2S, DataArray.meanTime, DataArray.stdTime,
    DataArray.reduceTime, DataArray.map2, DataArray.sumTime, Statistic.map1,
    Statistic.map2, hd, eq_self_iff_true, if_true, List.map_map,
    List.zipWith_map, List.map_zipWith, List.map_nil, List.length_nil,
    Function.comp, List.zipWith_same, zipWith_zipWith_same]
  apply zipWith_congr_mem
  intro a _ b _
  simp [List.zipWith_nil_left, nansum, toReals_nil, nanstd_nil, Val.div, Val.mul]

/-- In the empty-overlap case the slope and intercept cells are undefined. -/
theorem reg_disjoint_cells (p q : DataArray)
    (hdis : ∀ c ∈ p.timeCoords, c ∉ q.timeCoords) (hd : p.cellDims = q.cellDims) :
    (reg p q 0 0).1.cells = List.zipWith (fun _ _ => Val.undef) p.data q.data ∧
    (reg p q 0 0).2.cells = List.zipWith (fun _ _ => Val.undef) p.data q.data := by
  unfold reg
  simp only [lagPrep_zero, alignTime_disjoint p q hdis]
  simp only [DataArray.map2S, DataArray.meanTime, DataArray.stdTime,
    DataArray.reduceTime, DataArray.map2, DataArray.sumTime, Statistic.map1,
    Statistic.map2, hd, eq_self_iff_true, if_true, List.map_map,
    List.zipWith_map, List.map_zipWith, List.map_nil, List.length_nil,
    Function.comp, List.zipWith_same, zipWith_zipWith_same,
    zipWith_zipWith_left_same, zipWith_zipWith_right_same, zipWith_left_swap,
    List.zipWith_map_left, List.zipWith_map_right]
  constructor <;>
  · apply zipWith_congr_mem
    intro a _ b _
    simp [List.zipWith_nil_left, nansum, toReals_nil, nanstd_nil, nanmean_nil,
      Val.div, Val.mul, Val.sub, Val.sq]

theorem Val.div_fin_ne {a b : ℝ} (h : b ≠ 0) :
    Val.div (Val.fin a) (Val.fin b) = Val.fin (a / b) := by
  simp [Val.div, h]

theorem Val.tstat_undef (n : ℕ) : Val.tstat Val.undef n = Val.undef := by
  unfold Val.tstat
  rw [Val.mul_undef_left, Val.div_undef_left]

theorem Val.abs_undef : Val.abs Val.undef = Val.undef := rfl

theorem tsf_undef (tcdf : ℤ → ℝ → ℝ) (df : ℤ) : tsf tcdf df Val.undef = Val.undef := rfl

/-- Zero variance in x makes the correlation, slope and intercept cells
undefined (division by a zero denominator). -/
theorem zero_var_x_undef (x y : DataArray) (hwx : x.WF) (hwy : y.WF)
    (ht : x.timeCoords = y.timeCoords) (hd : x.cellDims = y.cellDims)
    (hn : x.timeCoords ≠ []) (hux : x.noUndef) (huy : y.noUndef)
    (hv0 : ∀ sx ∈ x.data, popVar (toReals sx) = 0) :
    (∀ v ∈ (cor x y 0 0).cells, v = Val.undef) ∧
    (∀ v ∈ (reg x y 0 0).1.cells, v = Val.undef) ∧
    (∀ v ∈ (reg x y 0 0).2.cells, v = Val.undef) := by
  have hlen : x.timeCoords.length ≠ 0 := fun h => hn (List.length_eq_zero.mp h)
  have hnonempty : ∀ z : DataArray, z.WF → z.noUndef →
      x.timeCoords = z.timeCoords → ∀ s ∈ z.data, toReals s ≠ [] := by
    intro z hwz huz htz s hs hnil
    exact hlen (by rw [htz, ← hwz.rows s hs, ← length_toReals (huz s hs), hnil]; rfl)
  have hregs := reg_aligned x y hwx hwy ht hd
  have hcors := cor_aligned x y hwx hwy ht hd
  refine ⟨?_, ?_, ?_⟩
  · intro v hv
    rw [hcors] at hv
    rcases mem_zipWith hv with ⟨sx, hsx, sy, hsy, rfl⟩
    rw [eq_toReals_map_fin (hux sx hsx), eq_toReals_map_fin (huy sy hsy),
      nanstd_map_fin (hnonempty x hwx hux rfl sx hsx),
      nanstd_map_fin (hnonempty y hwy huy ht sy hsy),
      hv0 sx hsx, Real.sqrt_zero]
    simp only [Val.mul]
    rw [zero_mul, Val.div_zero_denom]
  · intro v hv
    rw [hregs] at hv
    rcases mem_zipWith hv with ⟨sx, hsx, sy, hsy, rfl⟩
    rw [eq_toReals_map_fin (hux sx hsx),
      sq_nanstd_map_fin (hnonempty x hwx hux rfl sx hsx),
      hv0 sx hsx, Val.div_zero_denom]
  · intro v hv
    rw [hregs] at hv
    rcases mem_zipWith hv with ⟨sx, hsx, sy, hsy, rfl⟩
    rw [eq_toReals_map_fin (hux sx hsx),
      sq_nanstd_map_fin (hnonempty x hwx hux rfl sx hsx),
      hv0 sx hsx, Val.div_zero_denom, Val.mul_undef_right, Val.sub_undef_right]

/-- Zero variance in y makes the correlation cells undefined. -/
theorem zero_var_y_undef_cor (x y : DataArray) (hwx : x.WF) (hwy : y.WF)
    (ht : x.timeCoords = y.timeCoords) (hd : x.cellDims = y.cellDims)
    (hn : x.timeCoords ≠ []) (hux : x.noUndef) (huy : y.noUndef)
    (hv0 : ∀ sy ∈ y.data, popVar (toReals sy) = 0) :
    ∀ v ∈ (cor x y 0 0).cells, v = Val.undef := by
  have hlen : x.timeCoords.length ≠ 0 := fun h => hn (List.length_eq_zero.mp h)
  have hnonempty : ∀ z : DataArray, z.WF → z.noUndef →
      x.timeCoords = z.timeCoords → ∀ s ∈ z.data, toReals s ≠ [] := by
    intro z hwz huz htz s hs hnil
    exact hlen (by rw [htz, ← hwz.rows s hs, ← length_toReals (huz s hs), hnil]; rfl)
  intro v hv
  rw [cor_aligned x y hwx hwy ht hd] at hv
  rcases mem_zipWith hv with ⟨sx, hsx, sy, hsy, rfl⟩
  rw [eq_toReals_map_fin (hux sx hsx), eq_toReals_map_fin (huy sy hsy),
    nanstd_map_fin (hnonempty x hwx hux rfl sx hsx),
    nanstd_map_fin (hnonempty y hwy huy ht sy hsy),
    hv0 sy hsy, Real.sqrt_zero]
  simp only [Val.mul]
  rw [mul_zero, Val.div_zero_denom]

theorem Statistic.cells_mk (d : List String) (c : List (List ℤ)) (l : List Val) :
    (Statistic.mk d c l).cells = l := rfl

/-- Every cell of a map2 result is undefined when every cell of the first
argument is undefined and the operation is left-strict. -/
theorem map2_cells_undef_left {f : Val → Val → Val} {s t : Statistic}
    (hf : ∀ b, f Val.undef b = Val.undef)
    (hs : ∀ a ∈ s.cells, a = Val.undef) :
    ∀ v ∈ (Statistic.map2 f s t).cells, v = Val.undef := by
  intro v hv
  unfold Statistic.map2 at hv
  split_ifs at hv <;> simp only [Statistic.cells_mk] at hv
  · rcases mem_zipWith hv with ⟨a, ha, b, _, rfl⟩
    rw [hs a ha, hf]
  · rcases List.mem_map.mp hv with ⟨b, _, rfl⟩
    have hh : s.cells.headD Val.undef = Val.undef := by
      cases hc : s.cells with
      | nil => rfl
      | cons a l => exact hs a (by rw [hc]; simp)
    rw [hh, hf]
  · rcases List.mem_map.mp hv with ⟨a, ha, rfl⟩
    rw [hs a ha, hf]
  · simp at hv

/-- Structure of linregress_ND's p-value cells and standard error in terms of
the correlation and slope computations. -/
theorem linregress_pval_stderr_cells (tcdf : ℤ → ℝ → ℝ) (x y : DataArray)
    (lagx lagy : ℤ) :
    (linregress_ND tcdf x y lagx lagy).pval.cells =
      (cor x y lagx lagy).cells.map (fun c =>
        Val.mul (tsf tcdf
            (((alignTime (lagPrep x lagx) (lagPrep y lagy)).1.timeCoords.length : ℤ) - 2)
            (Val.abs (Val.tstat c
              (alignTime (lagPrep x lagx) (lagPrep y lagy)).1.timeCoords.length)))
          (Val.fin 2)) ∧
    (linregress_ND tcdf x y lagx lagy).stderr =
      Statistic.map2 Val.div (reg x y lagx lagy).1
        (Statistic.map1 (fun c =>
            Val.tstat c (alignTime (lagPrep x lagx) (lagPrep y lagy)).1.timeCoords.length)
          (cor x y lagx lagy)) := by
  constructor
  · show ((cor x y lagx lagy).cells.map _).map _ = _
    rw [List.map_map]
    rfl
  · rfl

/-- A list whose population variance is zero is constant: every entry equals
the mean. -/
theorem eq_mean_of_popVar_eq_zero {l : List ℝ} (hl : l ≠ []) (h : popVar l = 0) :
    ∀ b ∈ l, b = meanR l := by
  intro b hb
  have hlen : (l.length : ℝ) ≠ 0 := by
    have h0 : l.length ≠ 0 := fun h0 => hl (List.length_eq_zero.mp h0)
    exact_mod_cast h0
  have hsum : (l.map (fun a => (a - meanR l) ^ 2)).sum = 0 := by
    unfold popVar at h
    rcases div_eq_zero_iff.mp h with h1 | h1
    · exact h1
    · exact absurd h1 hlen
  have hterm : (b - meanR l) ^ 2 = 0 :=
    List.all_zero_of_le_zero_le_of_sum_eq_zero
      (fun t ht => by
        rcases List.mem_map.mp ht with ⟨a, _, rfl⟩
        exact sq_nonneg _)
      hsum (List.mem_map_of_mem _ hb)
  have hz : b - meanR l = 0 := sq_eq_zero_iff.mp hterm
  linarith

/-- Covariance against a zero-variance (constant) second list is zero. -/
theorem popCov_right_zero (xs ys : List ℝ) (hys : ys ≠ []) (h : popVar ys = 0) :
    popCov xs ys = 0 := by
  unfold popCov
  have hmem := eq_mean_of_popVar_eq_zero hys h
  have hz : (List.zipWith (fun a b => (a - meanR xs) * (b - meanR ys)) xs ys).sum = 0 := by
    apply List.sum_eq_zero
    intro t ht
    rcases mem_zipWith ht with ⟨a, _, b, hb, rfl⟩
    rw [hmem b hb, sub_self, mul_zero]
  rw [hz, zero_div]

/-- Every cell of a map2 result is undefined when every cell of the second
argument is undefined and the operation is right-strict. -/
theorem map2_cells_undef_right {f : Val → Val → Val} {s t : Statistic}
    (hf : ∀ a, f a Val.undef = Val.undef)
    (ht : ∀ b ∈ t.cells, b = Val.undef) :
    ∀ v ∈ (Statistic.map2 f s t).cells, v = Val.undef := by
  intro v hv
  unfold Statistic.map2 at hv
  split_ifs at hv <;> simp only [Statistic.cells_mk] at hv
  · rcases mem_zipWith hv with ⟨a, _, b, hb, rfl⟩
    rw [ht b hb, hf]
  · rcases List.mem_map.mp hv with ⟨b, hb, rfl⟩
    rw [ht b hb, hf]
  · rcases List.mem_map.mp hv with ⟨a, _, rfl⟩
    have hh : t.cells.headD Val.undef = Val.undef := by
      cases hc : t.cells with
      | nil => rfl
      | cons b l => exact ht b (by rw [hc]; simp)
    rw [hh, hf]
  · simp at hv

theorem constX_noUndef : constX.noUndef := by
  intro s hs v hv
  simp [constX] at hs
  subst hs
  simp at hv
  rcases hv with rfl | rfl | rfl <;> rfl

theorem constX_zero_var : ∀ sx ∈ constX.data, popVar (toReals sx) = 0 := by
  intro sx hsx
  simp [constX] at hsx
  subst hsx
  rw [toReals_fin_cons, toReals_fin_cons, toReals_fin_cons, toReals_nil]
  norm_num [popVar, meanR]

/-- C4 (amended): degenerate inputs surface as undefined numeric values, never
as exceptions (every model function is total): if every cell of x has zero
variance — in particular if x is constant — then cor(x,y) and reg's slope and
intercept and linregress_ND's p-value and standard error are undefined
everywhere, for any y; if every cell of y has zero variance then cor(x,y) and
linregress_ND's p-value and standard error are undefined everywhere, while reg
then returns the finite pair (0, mean of y) wherever x has nonzero variance;
and when no time position survives alignment (disjoint time coordinates) every
cell of cov, cor, reg and linregress_ND's p-value and standard error is
undefined.  (cov of a zero-variance x, by contrast, returns the number 0 — see
the counterexample.) -/
theorem degenerate_inputs_give_undef (tcdf : ℤ → ℝ → ℝ) (x y p q : DataArray)
    (hwx : x.WF) (hwy : y.WF)
    (ht : x.timeCoords = y.timeCoords) (hd : x.cellDims = y.cellDims)
    (hn : x.timeCoords ≠ []) (hux : x.noUndef) (huy : y.noUndef)
    (hdis : ∀ c ∈ p.timeCoords, c ∉ q.timeCoords)
    (hdpq : p.cellDims = q.cellDims) :
    ((∀ sx ∈ x.data, popVar (toReals sx) = 0) →
      (∀ v ∈ (cor x y 0 0).cells, v = Val.undef) ∧
      (∀ v ∈ (reg x y 0 0).1.cells, v = Val.undef) ∧
      (∀ v ∈ (reg x y 0 0).2.cells, v = Val.undef) ∧
      (∀ v ∈ (linregress_ND tcdf x y 0 0).pval.cells, v = Val.undef) ∧
      (∀ v ∈ (linregress_ND tcdf x y 0 0).stderr.cells, v = Val.undef)) ∧
    ((∀ sy ∈ y.data, popVar (toReals sy) = 0) →
      (∀ v ∈ (cor x y 0 0).cells, v = Val.undef) ∧
      (∀ v ∈ (linregress_ND tcdf x y 0 0).pval.cells, v = Val.undef) ∧
      (∀ v ∈ (linregress_ND tcdf x y 0 0).stderr.cells, v = Val.undef) ∧
      ((∀ sx ∈ x.data, popVar (toReals sx) ≠ 0) →
        (reg x y 0 0).1.cells =
          List.zipWith (fun _ _ => Val.fin 0) x.data y.data ∧
        (reg x y 0 0).2.cells =
          List.zipWith (fun _ sy => Val.fin (meanR (toReals sy))) x.data y.data)) ∧
    (∀ v ∈ (cov p q 0 0).cells, v = Val.undef) ∧
    (∀ v ∈ (cor p q 0 0).cells, v = Val.undef) ∧
    (∀ v ∈ (reg p q 0 0).1.cells, v = Val.undef) ∧
    (∀ v ∈ (reg p q 0 0).2.cells, v = Val.undef) ∧
    (∀ v ∈ (linregress_ND tcdf p q 0 0).pval.cells, v = Val.undef) ∧
    (∀ v ∈ (linregress_ND tcdf p q 0 0).stderr.cells, v = Val.undef) := by
  have hlen : x.timeCoords.length ≠ 0 := fun h0 => hn (List.length_eq_zero.mp h0)
  have hcell : ∀ sx ∈ x.data, ∀ sy ∈ y.data,
      toReals sx ≠ [] ∧ toReals sy ≠ [] ∧
        (toReals sx).length = x.timeCoords.length := by
    intro sx hsx sy hsy
    refine ⟨?_, ?_, ?_⟩
    · intro hnil
      exact hlen (by rw [← hwx.rows sx hsx, ← length_toReals (hux sx hsx), hnil]; rfl)
    · intro hnil
      exact hlen (by rw [ht, ← hwy.rows sy hsy, ← length_toReals (huy sy hsy), hnil]; rfl)
    · rw [length_toReals (hux sx hsx)]; exact hwx.rows sx hsx
  refine ⟨?_, ?_, ?_, ?_, ?_, ?_, ?_, ?_⟩
  · intro hv0
    obtain ⟨hcor, hslope, hint⟩ :=
      zero_var_x_undef x y hwx hwy ht hd hn hux huy hv0
    refine ⟨hcor, hslope, hint, ?_, ?_⟩
    · intro v hv
      rw [(linregress_pval_stderr_cells tcdf x y 0 0).1] at hv
      rcases List.mem_map.mp hv with ⟨c, hc, rfl⟩
      rw [hcor c hc, Val.tstat_undef, Val.abs_undef, tsf_undef, Val.mul_undef_left]
    · intro v hv
      rw [(linregress_pval_stderr_cells tcdf x y 0 0).2] at hv
      exact map2_cells_undef_left Val.div_undef_left hslope v hv
  · intro hvy
    have hcor := zero_var_y_undef_cor x y hwx hwy ht hd hn hux huy hvy
    refine ⟨hcor, ?_, ?_, ?_⟩
    · intro v hv
      rw [(linregress_pval_stderr_cells tcdf x y 0 0).1] at hv
      rcases List.mem_map.mp hv with ⟨c, hc, rfl⟩
      rw [hcor c hc, Val.tstat_undef, Val.abs_undef, tsf_undef, Val.mul_undef_left]
    · intro v hv
      rw [(linregress_pval_stderr_cells tcdf x y 0 0).2] at hv
      refine map2_cells_undef_right Val.div_undef_right ?_ v hv
      intro b hb
      simp only [Statistic.map1, Statistic.cells_mk] at hb
      rcases List.mem_map.mp hb with ⟨c, hc, rfl⟩
      rw [hcor c hc, Val.tstat_undef]
    · intro hvx
      rw [reg_aligned x y hwx hwy ht hd]
      constructor
      · apply zipWith_congr_mem
        intro sx hsx sy hsy
        obtain ⟨hax, hby, hlx⟩ := hcell sx hsx sy hsy
        conv_lhs => rw [eq_toReals_map_fin (hux sx hsx), eq_toReals_map_fin (huy sy hsy)]
        rw [cov_cell_fin (toReals sx) (toReals sy) x.timeCoords.length hlen hlx hby,
          sq_nanstd_map_fin hax,
          popCov_right_zero (toReals sx) (toReals sy) hby (hvy sy hsy),
          Val.div_fin_ne (hvx sx hsx), zero_div]
      · apply zipWith_congr_mem
        intro sx hsx sy hsy
        obtain ⟨hax, hby, hlx⟩ := hcell sx hsx sy hsy
        conv_lhs => rw [eq_toReals_map_fin (hux sx hsx), eq_toReals_map_fin (huy sy hsy)]
        rw [cov_cell_fin (toReals sx) (toReals sy) x.timeCoords.length hlen hlx hby,
          sq_nanstd_map_fin hax, nanmean_map_fin hax, nanmean_map_fin hby,
          popCov_right_zero (toReals sx) (toReals sy) hby (hvy sy hsy),
          Val.div_fin_ne (hvx sx hsx), zero_div]
        simp only [Val.mul, Val.sub]
        rw [mul_zero, sub_zero]
  · intro v hv
    rw [cov_disjoint_cells p q hdis hdpq] at hv
    rcases mem_zipWith hv with ⟨_, _, _, _, rfl⟩
    rfl
  · intro v hv
    rw [cor_disjoint_cells p q hdis hdpq] at hv
    rcases mem_zipWith hv with ⟨_, _, _, _, rfl⟩
    rfl
  · intro v hv
    rw [(reg_disjoint_cells p q hdis hdpq).1] at hv
    rcases mem_zipWith hv with ⟨_, _, _, _, rfl⟩
    rfl
  · intro v hv
    rw [(reg_disjoint_cells p q hdis hdpq).2] at hv
    rcases mem_zipWith hv with ⟨_, _, _, _, rfl⟩
    rfl
  · intro v hv
    rw [(linregress_pval_stderr_cells tcdf p q 0 0).1] at hv
    rcases List.mem_map.mp hv with ⟨c, hc, rfl⟩
    have hcq : c = Val.undef := by
      rw [cor_disjoint_cells p q hdis hdpq] at hc
      rcases mem_zipWith hc with ⟨_, _, _, _, rfl⟩
      rfl
    rw [hcq, Val.tstat_undef, Val.abs_undef, tsf_undef, Val.mul_undef_left]
  · intro v hv
    rw [(linregress_pval_stderr_cells tcdf p q 0 0).2] at hv
    refine map2_cells_undef_left Val.div_undef_left ?_ v hv
    intro a ha
    rw [(reg_disjoint_cells p q hdis hdpq).1] at ha
    rcases mem_zipWith ha with ⟨_, _, _, _, rfl⟩
    rfl

/-- Counterexample for C4 as stated: cov on a degenerate (zero variance,
constant) x returns the finite number 0, not an undefined value. -/
theorem cov_constant_x_is_zero_not_undef :
    (cov constX sampleY 0 0).cells = [Val.fin 0] ∧ Val.fin (0 : ℝ) ≠ Val.undef := by
  constructor
  · have h1 : nanmean [Val.fin 2, Val.fin 2, Val.fin 2] = Val.fin 2 := by
      unfold nanmean
      rw [toReals_fin_cons, toReals_fin_cons, toReals_fin_cons, toReals_nil,
        if_neg (by simp)]
      norm_num [meanR]
    have h2 : nanmean [Val.fin 2, Val.fin 4, Val.fin 6] = Val.fin 4 := by
      unfold nanmean
      rw [toReals_fin_cons, toReals_fin_cons, toReals_fin_cons, toReals_nil,
        if_neg (by simp)]
      norm_num [meanR]
    rw [cov_aligned constX sampleY constX_wf sampleY_wf rfl rfl,
      Statistic.cells_mk]
    simp only [constX, sampleY, List.zipWith_cons_cons, List.zipWith_nil_right,
      List.map_cons, List.map_nil, h1, h2, Val.sub, Val.mul]
    unfold nansum
    rw [toReals_fin_cons, toReals_fin_cons, toReals_fin_cons, toReals_nil]
    norm_num
    rw [Val.div_fin_ne (by norm_num : (3 : ℝ) ≠ 0)]
    norm_num
  · intro h
    exact Val.noConfusion h

/-- Witness for C4 (amended) at concrete inputs. -/
theorem degenerate_inputs_give_undef_witness :
    (constX.WF ∧ sampleY.WF ∧ constX.timeCoords = sampleY.timeCoords ∧
      constX.cellDims = sampleY.cellDims ∧ constX.timeCoords ≠ [] ∧
      constX.noUndef ∧ sampleY.noUndef ∧
      (∀ c ∈ sampleP.timeCoords, c ∉ sampleQ.timeCoords) ∧
      sampleP.cellDims = sampleQ.cellDims) ∧
    (((∀ sx ∈ constX.data, popVar (toReals sx) = 0) →
      (∀ v ∈ (cor constX sampleY 0 0).cells, v = Val.undef) ∧
      (∀ v ∈ (reg constX sampleY 0 0).1.cells, v = Val.undef) ∧
      (∀ v ∈ (reg constX sampleY 0 0).2.cells, v = Val.undef) ∧
      (∀ v ∈ (linregress_ND (fun _ _ => 0) constX sampleY 0 0).pval.cells, v = Val.undef) ∧
      (∀ v ∈ (linregress_ND (fun _ _ => 0) constX sampleY 0 0).stderr.cells, v = Val.undef)) ∧
    ((∀ sy ∈ sampleY.data, popVar (toReals sy) = 0) →
      (∀ v ∈ (cor constX sampleY 0 0).cells, v = Val.undef) ∧
      (∀ v ∈ (linregress_ND (fun _ _ => 0) constX sampleY 0 0).pval.cells, v = Val.undef) ∧
      (∀ v ∈ (linregress_ND (fun _ _ => 0) constX sampleY 0 0).stderr.cells, v = Val.undef) ∧
      ((∀ sx ∈ constX.data, popVar (toReals sx) ≠ 0) →
        (reg constX sampleY 0 0).1.cells =
          List.zipWith (fun _ _ => Val.fin 0) constX.data sampleY.data ∧
        (reg constX sampleY 0 0).2.cells =
          List.zipWith (fun _ sy => Val.fin (meanR (toReals sy)))
            constX.data sampleY.data)) ∧
    (∀ v ∈ (cov sampleP sampleQ 0 0).cells, v = Val.undef) ∧
    (∀ v ∈ (cor sampleP sampleQ 0 0).cells, v = Val.undef) ∧
    (∀ v ∈ (reg sampleP sampleQ 0 0).1.cells, v = Val.undef) ∧
    (∀ v ∈ (reg sampleP sampleQ 0 0).2.cells, v = Val.undef) ∧
    (∀ v ∈ (linregress_ND (fun _ _ => 0) sampleP sampleQ 0 0).pval.cells, v = Val.undef) ∧
    (∀ v ∈ (linregress_ND (fun _ _ => 0) sampleP sampleQ 0 0).stderr.cells, v = Val.undef)) :=
  ⟨⟨constX_wf, sampleY_wf, rfl, rfl, by decide, constX_noUndef, sampleY_noUndef,
      by decide, rfl⟩,
    degenerate_inputs_give_undef (fun _ _ => 0) constX sampleY sampleP sampleQ
      constX_wf sampleY_wf rfl rfl (by decide) constX_noUndef sampleY_noUndef
      (by decide) rfl⟩

theorem getD_range_map {α : Type} (g : ℕ → α) (d : α) {t n : ℕ} (h : t < n) :
    ((List.range n).map g).getD t d = g t := by
  rw [List.getD_eq_getElem?_getD, List.getElem?_eq_getElem (by simpa using h)]
  simp

theorem getD_range_map_eq_take {α : Type} (l : List α) (d : α) {m : ℕ}
    (h : m ≤ l.length) :
    (List.range m).map (fun t => l.getD t d) = l.take m := by
  apply List.ext_getElem
  · simpa using le_antisymm (le_min h le_rfl) (min_le_right _ _) |>.symm ▸ by
      simp [Nat.min_eq_left h]
  · intro i h₁ h₂
    have hi : i < m := by simpa using h₁
    rw [List.getElem_map, List.getElem_range, List.getElem_take,
      List.getD_eq_getElem?_getD, List.getElem?_eq_getElem (lt_of_lt_of_le hi h)]
    rfl

theorem filter_range_lt_succ (n : ℕ) :
    (List.range n).filter (fun t => decide (t + 1 < n)) = List.range (n - 1) := by
  cases n with
  | zero => rfl
  | succ m =>
    rw [List.range_succ, List.filter_append]
    have h1 : (List.range m).filter (fun t => decide (t + 1 < m + 1)) =
        List.range m := by
      apply List.filter_eq_self.mpr
      intro t ht
      have := List.mem_range.mp ht
      simp
      omega
    have h2 : ([m].filter (fun t => decide (t + 1 < m + 1))) = [] := by simp
    rw [h1, h2, List.append_nil]
    rfl

theorem getD_tail {α : Type} (s : List α) (t : ℕ) (d : α) :
    s.tail.getD t d = s.getD (t + 1) d := by
  cases s with
  | nil => simp [List.getD]
  | cons a l => rfl

/-- The lag-1 preprocessing (shift by -1 then dropna) equals the by-hand
shift: each series' tail over all but the last time coordinate. -/
theorem lagPrep_one_byHand (y : DataArray) (hwy : y.WF) (huy : y.noUndef)
    (hne : y.data ≠ []) : lagPrep y 1 = byHandShift y := by
  unfold lagPrep
  rw [if_neg one_ne_zero]
  unfold DataArray.shiftTime DataArray.dropnaAll byHandShift
  dsimp only
  set n := y.timeCoords.length with hn
  have hg : ∀ s : List Val, ∀ t : ℕ,
      ((List.range n).map (fun (t : ℕ) =>
          if 0 ≤ (t : ℤ) - (-1) ∧ (t : ℤ) - (-1) < (n : ℤ) then
            s.getD ((t : ℤ) - (-1)).toNat Val.undef
          else Val.undef)).getD t Val.undef =
        if t < n then
          (if t + 1 < n then s.getD (t + 1) Val.undef else Val.undef)
        else Val.undef := by
    intro s t
    by_cases ht : t < n
    · rw [getD_range_map _ _ ht, if_pos ht]
      by_cases h1 : t + 1 < n
      · rw [if_pos (by constructor <;> omega), if_pos h1]
        congr 1
      · have hc : ¬(0 ≤ (t : ℤ) - (-1) ∧ (t : ℤ) - (-1) < (n : ℤ)) := by omega
        rw [if_neg hc, if_neg h1]
    · rw [if_neg ht, List.getD_eq_getElem?_getD, List.getElem?_eq_none (by simp; omega)]
      rfl
  have hkeep : (List.range n).filter
      (fun t => (y.data.map (fun s => (List.range n).map (fun (t : ℕ) =>
          if 0 ≤ (t : ℤ) - (-1) ∧ (t : ℤ) - (-1) < (n : ℤ) then
            s.getD ((t : ℤ) - (-1)).toNat Val.undef
          else Val.undef))).any
        (fun s => (s.getD t Val.undef).isFin)) = List.range (n - 1) := by
    rw [List.filter_congr, filter_range_lt_succ n]
    intro t ht
    have htn : t < n := List.mem_range.mp ht
    by_cases h1 : t + 1 < n
    · rw [decide_eq_true h1]
      rw [List.any_eq_true]
      obtain ⟨s0, hs0⟩ := List.exists_mem_of_ne_nil y.data hne
      refine ⟨_, List.mem_map.mpr ⟨s0, hs0, rfl⟩, ?_⟩
      rw [hg s0 t, if_pos htn, if_pos h1]
      have hlt : t + 1 < s0.length := by rw [hwy.rows s0 hs0]; exact h1
      rw [List.getD_eq_getElem?_getD, List.getElem?_eq_getElem hlt]
      exact huy s0 hs0 _ (List.getElem_mem hlt)
    · rw [decide_eq_false h1]
      rw [List.any_eq_false]
      intro s' hs'
      rcases List.mem_map.mp hs' with ⟨s, hs, rfl⟩
      rw [hg s t, if_pos htn, if_neg h1]
      simp [Val.isFin]
  rw [hkeep]
  simp only [DataArray.mk.injEq, true_and, List.map_map]
  constructor
  · rw [getD_range_map_eq_take y.timeCoords 0 (by omega), List.dropLast_eq_take, ← hn]
  · apply List.map_congr_left
    intro s hs
    have hrow : s.length = n := hwy.rows s hs
    have htail : s.tail.length = n - 1 := by rw [List.length_tail, hrow]
    have hper : ∀ t ∈ List.range (n - 1),
        ((List.range n).map (fun (t : ℕ) =>
            if 0 ≤ (t : ℤ) - (-1) ∧ (t : ℤ) - (-1) < (n : ℤ) then
              s.getD ((t : ℤ) - (-1)).toNat Val.undef
            else Val.undef)).getD t Val.undef = s.tail.getD t Val.undef := by
      intro t ht
      have ht1 : t < n - 1 := List.mem_range.mp ht
      rw [hg s t, if_pos (by omega), if_pos (by omega), getD_tail]
    refine (List.map_congr_left hper).trans ?_
    rw [getD_range_map_eq_take s.tail Val.undef htail.symm.le, ← htail,
      List.take_length]

/-- C9: a lag of 1 on y is the same as pre-shifting y backward by one step by
hand (dropping the position that becomes undefined) and calling cov with no
lag: cov(x, y, lagx=0, lagy=1) = cov(x, byHandShift y, 0, 0) for every x. -/
theorem cov_lag_one_eq_cov_byhand_shift (x y : DataArray) (hwy : y.WF)
    (huy : y.noUndef) (hne : y.data ≠ []) :
    cov x y 0 1 = cov x (byHandShift y) 0 0 := by
  unfold cov
  rw [lagPrep_one_byHand y hwy huy hne]
  rfl

/-- Witness for C9 at a concrete input. -/
theorem cov_lag_one_eq_cov_byhand_shift_witness :
    (sampleY.WF ∧ sampleY.noUndef ∧ sampleY.data ≠ []) ∧
    cov sampleX sampleY 0 1 = cov sampleX (byHandShift sampleY) 0 0 :=
  ⟨⟨sampleY_wf, sampleY_noUndef, by simp [sampleY]⟩,
    cov_lag_one_eq_cov_byhand_shift sampleX sampleY sampleY_wf sampleY_noUndef
      (by simp [sampleY])⟩

theorem lagPrep_cellDims (a : DataArray) (l : ℤ) :
    (lagPrep a l).cellDims = a.cellDims := by
  unfold lagPrep DataArray.shiftTime DataArray.dropnaAll
  split <;> rfl

theorem lagPrep_cellCoords (a : DataArray) (l : ℤ) :
    (lagPrep a l).cellCoords = a.cellCoords := by
  unfold lagPrep DataArray.shiftTime DataArray.dropnaAll
  split <;> rfl

/-- C10: whenever linregress_ND returns on same-shape inputs, for any lags,
the p-value is rewrapped onto the correlation's dims and coordinate labels,
and all six returned statistics carry the same labeled non-time shape. -/
theorem linregress_pval_on_cor_labels (tcdf : ℤ → ℝ → ℝ) (x y : DataArray)
    (lagx lagy : ℤ) (hd : x.cellDims = y.cellDims)
    (hcc : x.cellCoords = y.cellCoords) :
    (linregress_ND tcdf x y lagx lagy).pval.cellDims =
      (linregress_ND tcdf x y lagx lagy).cor.cellDims ∧
    (linregress_ND tcdf x y lagx lagy).pval.cellCoords =
      (linregress_ND tcdf x y lagx lagy).cor.cellCoords ∧
    (linregress_ND tcdf x y lagx lagy).cov.cellDims =
      (linregress_ND tcdf x y lagx lagy).cor.cellDims ∧
    (linregress_ND tcdf x y lagx lagy).cov.cellCoords =
      (linregress_ND tcdf x y lagx lagy).cor.cellCoords ∧
    (linregress_ND tcdf x y lagx lagy).slope.cellDims =
      (linregress_ND tcdf x y lagx lagy).cor.cellDims ∧
    (linregress_ND tcdf x y lagx lagy).slope.cellCoords =
      (linregress_ND tcdf x y lagx lagy).cor.cellCoords ∧
    (linregress_ND tcdf x y lagx lagy).intercept.cellDims =
      (linregress_ND tcdf x y lagx lagy).cor.cellDims ∧
    (linregress_ND tcdf x y lagx lagy).intercept.cellCoords =
      (linregress_ND tcdf x y lagx lagy).cor.cellCoords ∧
    (linregress_ND tcdf x y lagx lagy).stderr.cellDims =
      (linregress_ND tcdf x y lagx lagy).cor.cellDims ∧
    (linregress_ND tcdf x y lagx lagy).stderr.cellCoords =
      (linregress_ND tcdf x y lagx lagy).cor.cellCoords := by
  have h1 : (lagPrep x lagx).cellDims = (lagPrep y lagy).cellDims := by
    rw [lagPrep_cellDims, lagPrep_cellDims, hd]
  have h2 : (lagPrep x lagx).cellCoords = (lagPrep y lagy).cellCoords := by
    rw [lagPrep_cellCoords, lagPrep_cellCoords, hcc]
  unfold linregress_ND
  dsimp only
  simp only [DataArray.map2S, DataArray.map2, DataArray.meanTime,
    DataArray.stdTime, DataArray.sumTime, DataArray.reduceTime, Statistic.map1,
    Statistic.map2, alignTime, h1, h2, eq_self_iff_true, if_true]
  simp

/-- Witness for C10 at a concrete input with a nonzero lag. -/
theorem linregress_pval_on_cor_labels_witness :
    (sampleX.cellDims = sampleY.cellDims ∧
      sampleX.cellCoords = sampleY.cellCoords) ∧
    ((linregress_ND (fun _ _ => 0) sampleX sampleY 1 0).pval.cellDims =
      (linregress_ND (fun _ _ => 0) sampleX sampleY 1 0).cor.cellDims ∧
    (linregress_ND (fun _ _ => 0) sampleX sampleY 1 0).pval.cellCoords =
      (linregress_ND (fun _ _ => 0) sampleX sampleY 1 0).cor.cellCoords ∧
    (linregress_ND (fun _ _ => 0) sampleX sampleY 1 0).cov.cellDims =
      (linregress_ND (fun _ _ => 0) sampleX sampleY 1 0).cor.cellDims ∧
    (linregress_ND (fun _ _ => 0) sampleX sampleY 1 0).cov.cellCoords =
      (linregress_ND (fun _ _ => 0) sampleX sampleY 1 0).cor.cellCoords ∧
    (linregress_ND (fun _ _ => 0) sampleX sampleY 1 0).slope.cellDims =
      (linregress_ND (fun _ _ => 0) sampleX sampleY 1 0).cor.cellDims ∧
    (linregress_ND (fun _ _ => 0) sampleX sampleY 1 0).slope.cellCoords =
      (linregress_ND (fun _ _ => 0) sampleX sampleY 1 0).cor.cellCoords ∧
    (linregress_ND (fun _ _ => 0) sampleX sampleY 1 0).intercept.cellDims =
      (linregress_ND (fun _ _ => 0) sampleX sampleY 1 0).cor.cellDims ∧
    (linregress_ND (fun _ _ => 0) sampleX sampleY 1 0).intercept.cellCoords =
      (linregress_ND (fun _ _ => 0) sampleX sampleY 1 0).cor.cellCoords ∧
    (linregress_ND (fun _ _ => 0) sampleX sampleY 1 0).stderr.cellDims =
      (linregress_ND (fun _ _ => 0) sampleX sampleY 1 0).cor.cellDims ∧
    (linregress_ND (fun _ _ => 0) sampleX sampleY 1 0).stderr.cellCoords =
      (linregress_ND (fun _ _ => 0) sampleX sampleY 1 0).cor.cellCoords) :=
  ⟨⟨rfl, rfl⟩,
    linregress_pval_on_cor_labels (fun _ _ => 0) sampleX sampleY 1 0 rfl rfl⟩

theorem popVar_singleton (a : ℝ) : popVar [a] = 0 := by
  norm_num [popVar, meanR]

theorem popVar_pair (a b : ℝ) : popVar [a, b] = (a - b) ^ 2 / 4 := by
  norm_num [popVar, meanR]
  ring

theorem popCov_pair (a b c d : ℝ) :
    popCov [a, b] [c, d] = (a - b) * (c - d) / 4 := by
  norm_num [popCov, meanR]
  ring

/-- For a correlation of square 1 (the only finite possibility with two data
points) the t-statistic at n = 2 is 0/0, hence undefined. -/
theorem Val.tstat_two_of_sq_one {q : ℝ} (hq : q ^ 2 = 1) :
    Val.tstat (Val.fin q) 2 = Val.undef := by
  simp only [Val.tstat, Val.sq, Val.sub, hq]
  norm_num [Val.sqrt, Val.mul, Val.div, Real.sqrt_zero]

/-- C7: linregress_ND computes the p-value as 2*sf(|t|, n-2) with
t = cor*sqrt(n-2)/sqrt(1-cor^2) and the standard error as slope/t, where sf
is the Student-t survival function 1 - CDF for positive degrees of freedom
and NaN otherwise; p-value and standard error live on the correlation's
non-time shape; and for n - 2 <= 0 every p-value and standard-error cell is
undefined (NaN) rather than an error. -/
theorem linregress_significance_formulas (tcdf : ℤ → ℝ → ℝ) (x y : DataArray)
    (hwx : x.WF) (hwy : y.WF) (ht : x.timeCoords = y.timeCoords)
    (hd : x.cellDims = y.cellDims) (hn : x.timeCoords ≠ [])
    (hux : x.noUndef) (huy : y.noUndef) :
    (linregress_ND tcdf x y 0 0).pval.cells =
      (cor x y 0 0).cells.map (fun c =>
        Val.mul (tsf tcdf ((x.timeCoords.length : ℤ) - 2)
          (Val.abs (Val.tstat c x.timeCoords.length))) (Val.fin 2)) ∧
    (linregress_ND tcdf x y 0 0).stderr.cells =
      List.zipWith (fun s c => Val.div s (Val.tstat c x.timeCoords.length))
        (reg x y 0 0).1.cells (cor x y 0 0).cells ∧
    (∀ df : ℤ, 0 < df → ∀ a : ℝ, tsf tcdf df (Val.fin a) = Val.fin (1 - tcdf df a)) ∧
    (∀ df : ℤ, df ≤ 0 → ∀ v : Val, tsf tcdf df v = Val.undef) ∧
    (linregress_ND tcdf x y 0 0).pval.cellDims = (cor x y 0 0).cellDims ∧
    (linregress_ND tcdf x y 0 0).stderr.cellDims = (cor x y 0 0).cellDims ∧
    (x.timeCoords.length ≤ 2 →
      (∀ v ∈ (linregress_ND tcdf x y 0 0).pval.cells, v = Val.undef) ∧
      (∀ v ∈ (linregress_ND tcdf x y 0 0).stderr.cells, v = Val.undef)) := by
  have hN : (alignTime (lagPrep x 0) (lagPrep y 0)).1.timeCoords.length =
      x.timeCoords.length := by
    rw [lagPrep_zero, lagPrep_zero, alignTime_self x y hwx hwy ht]
  have hP := linregress_pval_stderr_cells tcdf x y 0 0
  have hsl := reg_aligned x y hwx hwy ht hd
  have hcr := cor_aligned x y hwx hwy ht hd
  have hpval : (linregress_ND tcdf x y 0 0).pval.cells =
      (cor x y 0 0).cells.map (fun c =>
        Val.mul (tsf tcdf ((x.timeCoords.length : ℤ) - 2)
          (Val.abs (Val.tstat c x.timeCoords.length))) (Val.fin 2)) := by
    rw [hP.1, hN]
  have hstderr : (linregress_ND tcdf x y 0 0).stderr.cells =
      List.zipWith (fun s c => Val.div s (Val.tstat c x.timeCoords.length))
        (reg x y 0 0).1.cells (cor x y 0 0).cells := by
    rw [hP.2, hN, hsl, hcr]
    simp only [Statistic.map2, Statistic.map1, Statistic.cells_mk,
      eq_self_iff_true, if_true, List.zipWith_map_right]
  refine ⟨hpval, hstderr, fun df hdf a => ?_, fun df hdf v => ?_, rfl, ?_, ?_⟩
  · simp [tsf, not_le.mpr hdf]
  · cases v with
    | undef => rfl
    | fin a => simp [tsf, hdf]
  · rw [hP.2, hN, hsl, hcr]
    simp only [Statistic.map2, Statistic.map1, eq_self_iff_true, if_true, hcr]
  · intro hle
    have hn1 : 0 < x.timeCoords.length := List.length_pos.mpr hn
    have htstat : ∀ c ∈ (cor x y 0 0).cells,
        Val.tstat c x.timeCoords.length = Val.undef := by
      have h12 : x.timeCoords.length = 1 ∨ x.timeCoords.length = 2 := by omega
      rcases h12 with h1 | h2
      · have hvar0 : ∀ sx ∈ x.data, popVar (toReals sx) = 0 := by
          intro sx hsx
          have : (toReals sx).length = 1 := by
            rw [length_toReals (hux sx hsx), hwx.rows sx hsx, h1]
          obtain ⟨a, ha⟩ := List.length_eq_one.mp this
          rw [ha, popVar_singleton]
        have hcun := (zero_var_x_undef x y hwx hwy ht hd hn hux huy hvar0).1
        intro c hc
        rw [hcun c hc, Val.tstat_undef]
      · intro c hc
        rw [cor_cells_popform x y hwx hwy ht hd hn hux huy] at hc
        rcases mem_zipWith hc with ⟨sx, hsx, sy, hsy, rfl⟩
        obtain ⟨a, b, hab⟩ := List.length_eq_two.mp
          (show (toReals sx).length = 2 by
            rw [length_toReals (hux sx hsx), hwx.rows sx hsx, h2])
        obtain ⟨c2, d, hcd⟩ := List.length_eq_two.mp
          (show (toReals sy).length = 2 by
            rw [length_toReals (huy sy hsy), hwy.rows sy hsy, ← ht, h2])
        rw [hab, hcd, popCov_pair, popVar_pair, popVar_pair, h2]
        by_cases hz : Real.sqrt ((a - b) ^ 2 / 4) * Real.sqrt ((c2 - d) ^ 2 / 4) = 0
        · simp only [Val.mul, Val.div]
          rw [if_pos hz, Val.tstat_undef]
        · simp only [Val.mul, Val.div]
          rw [if_neg hz]
          apply Val.tstat_two_of_sq_one
          have ha4 : (0 : ℝ) ≤ (a - b) ^ 2 / 4 := by positivity
          have hc4 : (0 : ℝ) ≤ (c2 - d) ^ 2 / 4 := by positivity
          have hD2 : (Real.sqrt ((a - b) ^ 2 / 4) * Real.sqrt ((c2 - d) ^ 2 / 4)) ^ 2 =
              ((a - b) ^ 2 / 4) * ((c2 - d) ^ 2 / 4) := by
            rw [mul_pow, Real.sq_sqrt ha4, Real.sq_sqrt hc4]
          have hP2 : ((a - b) * (c2 - d) / 4) ^ 2 =
              ((a - b) ^ 2 / 4) * ((c2 - d) ^ 2 / 4) := by ring
          rw [div_pow, hP2, hD2]
          have hne : ((a - b) ^ 2 / 4) * ((c2 - d) ^ 2 / 4) ≠ 0 := by
            rw [← hD2]
            exact pow_ne_zero 2 hz
          exact div_self hne
    constructor
    · intro v hv
      rw [hpval] at hv
      rcases List.mem_map.mp hv with ⟨c, hc, rfl⟩
      rw [htstat c hc, Val.abs_undef, tsf_undef, Val.mul_undef_left]
    · intro v hv
      rw [hstderr] at hv
      rcases mem_zipWith hv with ⟨s, _, c, hc, rfl⟩
      rw [htstat c hc, Val.div_undef_right]

/-- Witness for C7 at a concrete input. -/
theorem linregress_significance_formulas_witness :
    (sampleX.WF ∧ sampleY.WF ∧ sampleX.timeCoords = sampleY.timeCoords ∧
      sampleX.cellDims = sampleY.cellDims ∧ sampleX.timeCoords ≠ [] ∧
      sampleX.noUndef ∧ sampleY.noUndef) ∧
    ((linregress_ND (fun _ _ => 0) sampleX sampleY 0 0).pval.cells =
      (cor sampleX sampleY 0 0).cells.map (fun c =>
        Val.mul (tsf (fun _ _ => 0) ((sampleX.timeCoords.length : ℤ) - 2)
          (Val.abs (Val.tstat c sampleX.timeCoords.length))) (Val.fin 2)) ∧
    (linregress_ND (fun _ _ => 0) sampleX sampleY 0 0).stderr.cells =
      List.zipWith (fun s c => Val.div s (Val.tstat c sampleX.timeCoords.length))
        (reg sampleX sampleY 0 0).1.cells (cor sampleX sampleY 0 0).cells ∧
    (∀ df : ℤ, 0 < df → ∀ a : ℝ,
      tsf (fun _ _ => 0) df (Val.fin a) = Val.fin (1 - (fun _ _ => (0:ℝ)) df a)) ∧
    (∀ df : ℤ, df ≤ 0 → ∀ v : Val, tsf (fun _ _ => 0) df v = Val.undef) ∧
    (linregress_ND (fun _ _ => 0) sampleX sampleY 0 0).pval.cellDims =
      (cor sampleX sampleY 0 0).cellDims ∧
    (linregress_ND (fun _ _ => 0) sampleX sampleY 0 0).stderr.cellDims =
      (cor sampleX sampleY 0 0).cellDims ∧
    (sampleX.timeCoords.length ≤ 2 →
      (∀ v ∈ (linregress_ND (fun _ _ => 0) sampleX sampleY 0 0).pval.cells,
        v = Val.undef) ∧
      (∀ v ∈ (linregress_ND (fun _ _ => 0) sampleX sampleY 0 0).stderr.cells,
        v = Val.undef))) :=
  ⟨⟨sampleX_wf, sampleY_wf, rfl, rfl, by decide, sampleX_noUndef, sampleY_noUndef⟩,
    linregress_significance_formulas (fun _ _ => 0) sampleX sampleY
      sampleX_wf sampleY_wf rfl rfl (by decide) sampleX_noUndef sampleY_noUndef⟩

/-- C2: evaluation of detrend_ND_xr at the default rolling_mean_window = 0 on
a pure linear trend.  xarray rejects a window of 0 (ValueError: window must
be > 0), and the mean over an empty window is undefined at every position, so
the smoothed series, the regression against it, and the whole detrended
output are undefined everywhere — not the constant mean(y) = 4 array the
docstring and spec promise for the default. -/
theorem detrend_default_window_all_undef :
    (detrend_ND_xr linY 0).data =
      [[Val.undef, Val.undef, Val.undef, Val.undef]] ∧
    (detrend_ND_xr linY 0).data ≠
      [[Val.fin 4, Val.fin 4, Val.fin 4, Val.fin 4]] := by
  have hdes : linY.rollingMeanCenter 0 =
      ⟨[], [], [0, 1, 2, 3], [[Val.undef, Val.undef, Val.undef, Val.undef]]⟩ := by
    unfold DataArray.rollingMeanCenter windowMeanCenter
    simp [linY, List.range_succ]
  have hwI : (detrendIndex linY).WF := by
    constructor
    · intro s hs
      simp [detrendIndex, linY] at hs
      subst hs
      simp [detrendIndex, linY]
    · simp [detrendIndex, linY]
  have hwU : (DataArray.mk [] [] [0, 1, 2, 3]
      [[Val.undef, Val.undef, Val.undef, Val.undef]]).WF := by
    constructor
    · intro s hs
      simp at hs
      subst hs
      rfl
    · decide
  have hmu : nanmean [Val.undef, Val.undef, Val.undef, Val.undef] = Val.undef := by
    simp [nanmean, toReals_undef_cons, toReals_nil]
  have hmain : (detrend_ND_xr linY 0).data =
      [[Val.undef, Val.undef, Val.undef, Val.undef]] := by
    unfold detrend_ND_xr
    rw [hdes]
    dsimp only
    rw [reg_aligned (detrendIndex linY) _ hwI hwU rfl rfl]
    simp only [detrendIndex, linY, List.length_cons, List.length_nil,
      List.range_succ, List.range_zero, List.nil_append, List.cons_append,
      List.map_cons, List.map_nil, List.zipWith_cons_cons, List.zipWith_nil_right,
      Statistic.cells_mk, hmu, Val.sub_undef_left, Statistic.map2D,
      DataArray.map2S, DataArray.map2, DataArray.map1, Statistic.map1,
      eq_self_iff_true, if_true, Val.mul_undef_right, Val.add_undef_right,
      Val.sub_undef_right, Val.add_undef_left]
  refine ⟨hmain, ?_⟩
  rw [hmain]
  simp

/-- The centered window-3 moving average of bumpY: undefined at the edges,
1, 2, 4 at the interior positions. -/
theorem bumpY_rolling3 : bumpY.rollingMeanCenter 3 =
    ⟨[], [], [0, 1, 2, 3, 4],
      [[Val.undef, Val.fin 1, Val.fin 2, Val.fin 4, Val.undef]]⟩ := by
  unfold DataArray.rollingMeanCenter windowMeanCenter
  simp [bumpY, List.range_succ, toReals_fin_cons, toReals_nil, Val.isFin]
  norm_num

theorem sq_sqrt_popVar (l : List ℝ) :
    Real.sqrt (popVar l) ^ 2 = popVar l :=
  Real.sq_sqrt (popVar_nonneg l)

/-- Counterexample for C3 as stated: on bumpY with window 3, the code's
regression (full-length smoothed series, nothing dropped by alignment since
the dropna is commented out) gives slope 3/10, while the regression
restricted to the positions where the moving average is defined — what the
claim says happens — gives slope 3/2. -/
theorem detrend_fit_not_restricted_to_defined_positions :
    (detrendFitCode bumpY 3).1.cells = [Val.fin (3 / 10)] ∧
    (detrendFitSpec bumpY 3).1.cells = [Val.fin (3 / 2)] ∧
    (detrendFitCode bumpY 3).1.cells ≠ (detrendFitSpec bumpY 3).1.cells := by
  have hdrop : (DataArray.mk ([] : List String) ([] : List (List ℤ)) [0, 1, 2, 3, 4]
      [[Val.undef, Val.fin 1, Val.fin 2, Val.fin 4, Val.undef]]).dropnaAll =
      ⟨[], [], [1, 2, 3], [[Val.fin 1, Val.fin 2, Val.fin 4]]⟩ := by
    rfl
  have hwI : (detrendIndex bumpY).WF := by
    constructor
    · intro s hs
      simp [detrendIndex, bumpY] at hs
      subst hs
      simp [detrendIndex, bumpY]
    · simp [detrendIndex, bumpY]
  have hwDes : (DataArray.mk ([] : List String) ([] : List (List ℤ)) [0, 1, 2, 3, 4]
      [[Val.undef, Val.fin 1, Val.fin 2, Val.fin 4, Val.undef]]).WF := by
    constructor
    · intro s hs
      simp at hs
      subst hs
      rfl
    · decide
  have hm5 : nanmean [Val.fin 0, Val.fin 1, Val.fin 2, Val.fin 3, Val.fin 4] =
      Val.fin 2 := by
    unfold nanmean
    rw [toReals_fin_cons, toReals_fin_cons, toReals_fin_cons, toReals_fin_cons,
      toReals_fin_cons, toReals_nil, if_neg (by simp)]
    norm_num [meanR]
  have hsq5 : Val.sq (nanstd [Val.fin 0, Val.fin 1, Val.fin 2, Val.fin 3, Val.fin 4]) =
      Val.fin 2 := by
    have hv : popVar [(0:ℝ), 1, 2, 3, 4] = 2 := by norm_num [popVar, meanR]
    unfold nanstd
    rw [toReals_fin_cons, toReals_fin_cons, toReals_fin_cons, toReals_fin_cons,
      toReals_fin_cons, toReals_nil, if_neg (by simp), hv]
    simp only [Val.sq]
    rw [Real.sq_sqrt (by norm_num : (0:ℝ) ≤ 2)]
  have hmdes : nanmean [Val.undef, Val.fin 1, Val.fin 2, Val.fin 4, Val.undef] =
      Val.fin (7 / 3) := by
    unfold nanmean
    rw [toReals_undef_cons, toReals_fin_cons, toReals_fin_cons, toReals_fin_cons,
      toReals_undef_cons, toReals_nil, if_neg (by simp)]
    norm_num [meanR]
  have hm123 : nanmean [Val.fin 1, Val.fin 2, Val.fin 3] = Val.fin 2 := by
    unfold nanmean
    rw [toReals_fin_cons, toReals_fin_cons, toReals_fin_cons, toReals_nil,
      if_neg (by simp)]
    norm_num [meanR]
  have hsq123 : Val.sq (nanstd [Val.fin 1, Val.fin 2, Val.fin 3]) =
      Val.fin (2 / 3) := by
    have hv : popVar [(1:ℝ), 2, 3] = 2 / 3 := by norm_num [popVar, meanR]
    unfold nanstd
    rw [toReals_fin_cons, toReals_fin_cons, toReals_fin_cons, toReals_nil,
      if_neg (by simp), hv]
    simp only [Val.sq]
    rw [Real.sq_sqrt (by norm_num : (0:ℝ) ≤ 2 / 3)]
  have hm124 : nanmean [Val.fin 1, Val.fin 2, Val.fin 4] = Val.fin (7 / 3) := by
    unfold nanmean
    rw [toReals_fin_cons, toReals_fin_cons, toReals_fin_cons, toReals_nil,
      if_neg (by simp)]
    norm_num [meanR]
  have hcode : (detrendFitCode bumpY 3).1.cells = [Val.fin (3 / 10)] := by
    unfold detrendFitCode
    rw [bumpY_rolling3, reg_aligned (detrendIndex bumpY) _ hwI hwDes rfl rfl]
    simp only [Statistic.cells_mk, detrendIndex, bumpY, List.length_cons,
      List.length_nil, List.range_succ, List.range_zero, List.nil_append,
      List.cons_append, List.map_cons, List.map_nil, List.zipWith_cons_cons,
      List.zipWith_nil_right, Nat.cast_ofNat, Nat.cast_zero, Nat.cast_one]
    rw [hm5, hmdes, hsq5]
    simp only [Val.sub, Val.sub_undef_left, Val.mul, Val.mul_undef_right,
      Val.mul_undef_left, nansum, toReals_undef_cons, toReals_fin_cons,
      toReals_nil]
    norm_num [Val.div]
  have hspec : (detrendFitSpec bumpY 3).1.cells = [Val.fin (3 / 2)] := by
    unfold detrendFitSpec
    rw [bumpY_rolling3, hdrop]
    unfold reg
    simp only [lagPrep_zero]
    have halign : alignTime (detrendIndex bumpY)
        (DataArray.mk [] [] [1, 2, 3] [[Val.fin 1, Val.fin 2, Val.fin 4]]) =
        (⟨[], [], [1, 2, 3],
            [[Val.fin ((1 : ℕ) : ℝ), Val.fin ((2 : ℕ) : ℝ), Val.fin ((3 : ℕ) : ℝ)]]⟩,
         ⟨[], [], [1, 2, 3], [[Val.fin 1, Val.fin 2, Val.fin 4]]⟩) := by
      rfl
    rw [halign]
    simp only [Statistic.map2, Statistic.map1, DataArray.map2S, DataArray.map2,
      DataArray.meanTime, DataArray.stdTime, DataArray.sumTime,
      DataArray.reduceTime, Statistic.cells_mk, eq_self_iff_true, if_true,
      List.map_cons, List.map_nil, List.zipWith_cons_cons, List.zipWith_nil_right,
      List.length_cons, List.length_nil, Nat.cast_ofNat, Nat.cast_one]
    rw [hm123, hm124, hsq123]
    simp only [Val.sub, Val.mul, nansum, toReals_fin_cons, toReals_nil]
    norm_num [Val.div]
  refine ⟨hcode, hspec, ?_⟩
  rw [hcode, hspec]
  intro h
  have := List.head_eq_of_cons_eq h
  rw [Val.fin.injEq] at this
  norm_num at this

/-- C3 (amended): for rolling_mean_window > 0 the smoothed series keeps the
full time coordinates (the dropna after the rolling mean is commented out),
so the alignment inside the regression drops nothing — the fit's n, mean_x
and std_x run over the full time range, undefined smoothed positions being
skipped only by the nan-aware reductions — while the returned detrended
array retains the full original time coordinates, dims and coordinate labels
of y. -/
theorem detrend_window_alignment_and_shape (y : DataArray) (w : ℕ)
    (hw : 0 < w) (hwy : y.WF) :
    alignTime (detrendIndex y) (y.rollingMeanCenter w) =
      (detrendIndex y, y.rollingMeanCenter w) ∧
    (detrend_ND_xr y w).timeCoords = y.timeCoords ∧
    (detrend_ND_xr y w).cellDims = y.cellDims ∧
    (detrend_ND_xr y w).cellCoords = y.cellCoords := by
  have hwI : (detrendIndex y).WF := by
    constructor
    · intro s hs
      simp [detrendIndex] at hs
      subst hs
      simp [detrendIndex]
    · exact hwy.nodup
  have hwR : (y.rollingMeanCenter w).WF := by
    constructor
    · intro s hs
      simp [DataArray.rollingMeanCenter] at hs
      obtain ⟨s0, hs0, rfl⟩ := hs
      simp [DataArray.rollingMeanCenter]
    · exact hwy.nodup
  have halign := alignTime_self (detrendIndex y) (y.rollingMeanCenter w) hwI hwR rfl
  refine ⟨halign, ?_⟩
  unfold detrend_ND_xr reg
  simp only [lagPrep_zero]
  rw [halign]
  by_cases hyd : y.cellDims = []
  · simp only [DataArray.map2S, DataArray.map2, Statistic.map2, Statistic.map2D,
      Statistic.map1, DataArray.map1, DataArray.meanTime, DataArray.stdTime,
      DataArray.sumTime, DataArray.reduceTime, detrendIndex,
      DataArray.rollingMeanCenter, hyd, eq_self_iff_true, if_true]
    simp
  · have hyd2 : ¬([] = y.cellDims) := fun h => hyd h.symm
    simp only [DataArray.map2S, DataArray.map2, Statistic.map2, Statistic.map2D,
      Statistic.map1, DataArray.map1, DataArray.meanTime, DataArray.stdTime,
      DataArray.sumTime, DataArray.reduceTime, detrendIndex,
      DataArray.rollingMeanCenter, hyd, hyd2, eq_self_iff_true, if_true,
      if_false]
    simp

theorem bumpY_wf : bumpY.WF :=
  ⟨by intro s hs; simp [bumpY] at hs; subst hs; rfl, by decide⟩

/-- Witness for C3 (amended) at a concrete input. -/
theorem detrend_window_alignment_and_shape_witness :
    (0 < 3 ∧ bumpY.WF) ∧
    (alignTime (detrendIndex bumpY) (bumpY.rollingMeanCenter 3) =
      (detrendIndex bumpY, bumpY.rollingMeanCenter 3) ∧
    (detrend_ND_xr bumpY 3).timeCoords = bumpY.timeCoords ∧
    (detrend_ND_xr bumpY 3).cellDims = bumpY.cellDims ∧
    (detrend_ND_xr bumpY 3).cellCoords = bumpY.cellCoords) :=
  ⟨⟨by decide, bumpY_wf⟩,
    detrend_window_alignment_and_shape bumpY 3 (by decide) bumpY_wf⟩

end MvStats
